import Mathlib

/-
Verification of the AST diff analyzer core (ssi/retrieval/ast_diff_analyzer.py).

The Python module is shallowly embedded below:
* Python dicts (string-keyed, insertion ordered) are association lists with
  first-occurrence lookup and in-place replacement on insert, mirroring dict
  semantics (`dictInsert`, `dictLookup`).
* The in-place mutation performed by `_format_function_signature`
  (`args = func_info['args']; args.append(...)` aliases and extends the stored
  parameter list) is modelled by explicit state passing: the formatting
  function returns the signature together with the updated record, and the
  comparison loops thread the updated dictionaries.
* Enum classes become inductive types; `Enum(value)` lookup by tag string
  becomes a total function into `Option`.
-/

set_option maxHeartbeats 1000000

namespace SSIDiff

/-! ## Python dict model -/

/-- Insertion-ordered string-keyed dictionary, as used for every mapping in the
analyzer (`api['functions']`, `methods`, result mappings, ...). -/
abbrev Dict (α : Type) := List (String × α)

/-- Lookup `d[k]` (and `k in d`): first entry with the given key. -/
def dictLookup {α : Type} : Dict α → String → Option α
  | [], _ => none
  | (k', v) :: rest, k => if k' = k then some v else dictLookup rest k

/-- Membership test `k in d`. -/
def dictContains {α : Type} (d : Dict α) (k : String) : Bool :=
  (dictLookup d k).isSome

/-- Assignment `d[k] = v`: replace the first entry with the key in place, else append. -/
def dictInsert {α : Type} : Dict α → String → α → Dict α
  | [], k, v => [(k, v)]
  | (k', v') :: rest, k, v =>
    if k' = k then (k, v) :: rest else (k', v') :: dictInsert rest k v

/-- Iteration order of the keys (`for k in d`). -/
def dictKeys {α : Type} (d : Dict α) : List String := d.map Prod.fst

@[simp] theorem dictLookup_nil {α : Type} (k : String) :
    dictLookup ([] : Dict α) k = none := rfl

@[simp] theorem dictKeys_nil {α : Type} : dictKeys ([] : Dict α) = [] := rfl

@[simp] theorem dictKeys_cons {α : Type} (k : String) (v : α) (d : Dict α) :
    dictKeys ((k, v) :: d) = k :: dictKeys d := rfl

theorem dictLookup_insert {α : Type} (d : Dict α) (k k' : String) (v : α) :
    dictLookup (dictInsert d k v) k' = if k = k' then some v else dictLookup d k' := by
  induction d with
  | nil => simp [dictInsert, dictLookup]
  | cons p rest ih =>
    obtain ⟨k₀, v₀⟩ := p
    by_cases h₀ : k₀ = k
    · subst h₀
      simp only [dictInsert, if_pos rfl, dictLookup]
      by_cases h₁ : k₀ = k'
      · simp [dictLookup, h₁]
      · simp [dictLookup, h₁]
    · simp only [dictInsert, if_neg h₀, dictLookup]
      by_cases h₁ : k₀ = k'
      · subst h₁
        have hk : ¬ k = k₀ := fun h => h₀ h.symm
        simp [hk]
      · simp only [if_neg h₁]
        exact ih

theorem dictLookup_insert_self {α : Type} (d : Dict α) (k : String) (v : α) :
    dictLookup (dictInsert d k v) k = some v := by
  simp [dictLookup_insert]

theorem dictLookup_insert_ne {α : Type} (d : Dict α) {k k' : String} (v : α)
    (h : k ≠ k') : dictLookup (dictInsert d k v) k' = dictLookup d k' := by
  simp [dictLookup_insert, h]

theorem dictKeys_insert_mem {α : Type} (d : Dict α) (k : String) (v : α)
    (h : k ∈ dictKeys d) : dictKeys (dictInsert d k v) = dictKeys d := by
  induction d with
  | nil => simp at h
  | cons p rest ih =>
    obtain ⟨k₀, v₀⟩ := p
    by_cases h₀ : k₀ = k
    · subst h₀; simp [dictInsert]
    · have hk : k ∈ dictKeys rest := by
        rw [dictKeys_cons, List.mem_cons] at h
        rcases h with h | h
        · exact absurd h.symm h₀
        · exact h
      simp only [dictInsert, if_neg h₀]
      rw [dictKeys_cons, dictKeys_cons, ih hk]

theorem dictLookup_isSome_iff_mem {α : Type} (d : Dict α) (k : String) :
    (dictLookup d k).isSome = true ↔ k ∈ dictKeys d := by
  induction d with
  | nil => simp
  | cons p rest ih =>
    obtain ⟨k₀, v₀⟩ := p
    rw [dictKeys_cons, List.mem_cons]
    by_cases h₀ : k₀ = k
    · subst h₀; simp [dictLookup]
    · rw [show dictLookup ((k₀, v₀) :: rest) k = dictLookup rest k by
        simp [dictLookup, h₀], ih]
      constructor
      · intro h; exact Or.inr h
      · intro h
        rcases h with h | h
        · exact absurd h.symm h₀
        · exact h

theorem dictContains_iff_mem {α : Type} (d : Dict α) (k : String) :
    dictContains d k = true ↔ k ∈ dictKeys d := by
  unfold dictContains; exact dictLookup_isSome_iff_mem d k

theorem dictContains_congr {α β : Type} {d₁ : Dict α} {d₂ : Dict β}
    (h : dictKeys d₁ = dictKeys d₂) (k : String) :
    dictContains d₁ k = dictContains d₂ k := by
  by_cases hk : k ∈ dictKeys d₁
  · have h₁ := (dictContains_iff_mem d₁ k).2 hk
    have h₂ := (dictContains_iff_mem d₂ k).2 (h ▸ hk)
    rw [h₁, h₂]
  · have h₁ : dictContains d₁ k = false := by
      cases hc : dictContains d₁ k
      · rfl
      · exact absurd ((dictContains_iff_mem d₁ k).1 hc) hk
    have h₂ : dictContains d₂ k = false := by
      cases hc : dictContains d₂ k
      · rfl
      · exact absurd ((dictContains_iff_mem d₂ k).1 hc) (h ▸ hk)
    rw [h₁, h₂]

theorem dictLookup_mem {α : Type} {d : Dict α} {k : String} {v : α}
    (h : dictLookup d k = some v) : (k, v) ∈ d := by
  induction d with
  | nil => simp [dictLookup] at h
  | cons p rest ih =>
    obtain ⟨k₀, v₀⟩ := p
    by_cases h₀ : k₀ = k
    · subst h₀
      simp [dictLookup] at h
      subst h; exact List.mem_cons_self _ _
    · simp [dictLookup, h₀] at h
      exact List.mem_cons_of_mem _ (ih h)

/-- Congruence for `filterMap` over a list, needed to discharge the
state-threading of the comparison loops. -/
theorem filterMapCongr {α β : Type} {l : List α} {f g : α → Option β}
    (h : ∀ a ∈ l, f a = g a) : l.filterMap f = l.filterMap g := by
  induction l with
  | nil => rfl
  | cons a l ih =>
    simp only [List.filterMap_cons, h a (List.mem_cons_self a l)]
    rw [ih (fun a ha => h a (List.mem_cons_of_mem _ ha))]

/-- Iterating the keys of a duplicate-free dict and looking each key up visits
exactly the stored entries, in order. -/
theorem keysFilterMap {α β : Type} (d : Dict α) (g : String → α → Option β)
    (h : (dictKeys d).Nodup) :
    (dictKeys d).filterMap (fun k =>
        match dictLookup d k with
        | some v => g k v
        | none => none) =
      d.filterMap (fun p => g p.1 p.2) := by
  induction d with
  | nil => rfl
  | cons p rest ih =>
    obtain ⟨k₀, v₀⟩ := p
    rw [dictKeys_cons, List.nodup_cons] at h
    obtain ⟨hk₀, hrest⟩ := h
    rw [dictKeys_cons, List.filterMap_cons, List.filterMap_cons]
    have hself : dictLookup ((k₀, v₀) :: rest) k₀ = some v₀ := by
      simp [dictLookup]
    have htail : (dictKeys rest).filterMap (fun k =>
        match dictLookup ((k₀, v₀) :: rest) k with
        | some v => g k v
        | none => none) =
        (dictKeys rest).filterMap (fun k =>
        match dictLookup rest k with
        | some v => g k v
        | none => none) := by
      apply filterMapCongr
      intro k hk
      have hne : ¬ k₀ = k := fun hEq => hk₀ (hEq ▸ hk)
      simp [dictLookup, hne]
    simp only [hself, htail, ih hrest]

/-! ## Change taxonomy (`ChangeType`, `SeverityLevel`, `CodeChange`) -/

inductive ChangeType where
  | function_removed
  | function_signature_changed
  | function_added
  | class_removed
  | class_inheritance_changed
  | class_added
  | method_removed
  | method_signature_changed
  | method_added
  | variable_removed
  | variable_type_changed
  | variable_added
  | import_removed
  | import_added
  | constant_value_changed
  | decorator_removed
  | decorator_added
deriving DecidableEq

/-- Member value `ChangeType(...).value`: the lowercase tag string of each member. -/
def ChangeType.value : ChangeType → String
  | .function_removed => "function_removed"
  | .function_signature_changed => "function_signature_changed"
  | .function_added => "function_added"
  | .class_removed => "class_removed"
  | .class_inheritance_changed => "class_inheritance_changed"
  | .class_added => "class_added"
  | .method_removed => "method_removed"
  | .method_signature_changed => "method_signature_changed"
  | .method_added => "method_added"
  | .variable_removed => "variable_removed"
  | .variable_type_changed => "variable_type_changed"
  | .variable_added => "variable_added"
  | .import_removed => "import_removed"
  | .import_added => "import_added"
  | .constant_value_changed => "constant_value_changed"
  | .decorator_removed => "decorator_removed"
  | .decorator_added => "decorator_added"

/-- Lookup `ChangeType(tag)`: member lookup by value, `None` models the raised
`ValueError` for an unrecognized tag. -/
def ChangeType.ofValue : String → Option ChangeType
  | "function_removed" => some .function_removed
  | "function_signature_changed" => some .function_signature_changed
  | "function_added" => some .function_added
  | "class_removed" => some .class_removed
  | "class_inheritance_changed" => some .class_inheritance_changed
  | "class_added" => some .class_added
  | "method_removed" => some .method_removed
  | "method_signature_changed" => some .method_signature_changed
  | "method_added" => some .method_added
  | "variable_removed" => some .variable_removed
  | "variable_type_changed" => some .variable_type_changed
  | "variable_added" => some .variable_added
  | "import_removed" => some .import_removed
  | "import_added" => some .import_added
  | "constant_value_changed" => some .constant_value_changed
  | "decorator_removed" => some .decorator_removed
  | "decorator_added" => some .decorator_added
  | _ => none

inductive SeverityLevel where
  | breaking
  | compatible
  | patch
  | internal
deriving DecidableEq

def SeverityLevel.value : SeverityLevel → String
  | .breaking => "breaking"
  | .compatible => "compatible"
  | .patch => "patch"
  | .internal => "internal"

def SeverityLevel.ofValue : String → Option SeverityLevel
  | "breaking" => some .breaking
  | "compatible" => some .compatible
  | "patch" => some .patch
  | "internal" => some .internal
  | _ => none

/-- The only value the analyzer ever stores in `additional_info`
(`{'old_bases': ..., 'new_bases': ...}` for inheritance changes). -/
structure AdditionalInfo where
  old_bases : List String
  new_bases : List String
deriving DecidableEq

/-- The `CodeChange` dataclass. -/
structure CodeChange where
  change_type : ChangeType
  severity : SeverityLevel
  description : String
  old_location : Option String := none
  new_location : Option String := none
  old_signature : Option String := none
  new_signature : Option String := none
  additional_info : Option AdditionalInfo := none
deriving DecidableEq

/-- The string-keyed transport record produced by `CodeChange.to_dict`
(field values kept at their natural types; enum fields are tag strings,
absent optionals are `none`, mirroring JSON `null`). -/
structure ChangeRecord where
  change_type : String
  severity : String
  description : String
  old_location : Option String
  new_location : Option String
  old_signature : Option String
  new_signature : Option String
  additional_info : Option AdditionalInfo
deriving DecidableEq

/-- Serialization `CodeChange.to_dict`. -/
def CodeChange.to_dict (c : CodeChange) : ChangeRecord :=
  { change_type := c.change_type.value
    severity := c.severity.value
    description := c.description
    old_location := c.old_location
    new_location := c.new_location
    old_signature := c.old_signature
    new_signature := c.new_signature
    additional_info := c.additional_info }

/-- Deserialization `CodeChange.from_dict`; the nested matches mirror the evaluation order of
`ChangeType(data['change_type'])` then `SeverityLevel(data['severity'])`, each
of which raises (here: `none`) on an unrecognized tag. -/
def CodeChange.from_dict (data : ChangeRecord) : Option CodeChange :=
  match ChangeType.ofValue data.change_type with
  | none => none
  | some t =>
    match SeverityLevel.ofValue data.severity with
    | none => none
    | some s =>
      some { change_type := t
             severity := s
             description := data.description
             old_location := data.old_location
             new_location := data.new_location
             old_signature := data.old_signature
             new_signature := data.new_signature
             additional_info := data.additional_info }

theorem ChangeType.ofValue_value_ct (t : ChangeType) :
    ChangeType.ofValue t.value = some t := by
  cases t <;> rfl

theorem SeverityLevel.ofValue_value_sev (s : SeverityLevel) :
    SeverityLevel.ofValue s.value = some s := by
  cases s <;> rfl

/-- C6: every `CodeChange` round-trips losslessly through the string-keyed
transport record (enum fields as lowercase tag strings), and deserialization
of a record with an unrecognized `change_type` or `severity` tag fails
(returns no value) rather than producing a change. -/
theorem change_serialization_roundtrip :
    (∀ c : CodeChange, CodeChange.from_dict (CodeChange.to_dict c) = some c) ∧
    (∀ d : ChangeRecord,
      ChangeType.ofValue d.change_type = none ∨ SeverityLevel.ofValue d.severity = none →
      CodeChange.from_dict d = none) := by
  constructor
  · intro c
    unfold CodeChange.to_dict CodeChange.from_dict
    rw [ChangeType.ofValue_value_ct, SeverityLevel.ofValue_value_sev]
  · intro d h
    unfold CodeChange.from_dict
    rcases h with h | h
    · rw [h]
    · rw [h]
      cases ChangeType.ofValue d.change_type <;> rfl

/-- Witness for C6 at a concrete change and a concrete malformed record. -/
theorem change_serialization_roundtrip_witness :
    CodeChange.from_dict (CodeChange.to_dict
      { change_type := .function_removed
        severity := .breaking
        description := "Function 'f' was removed"
        old_location := some "line 3"
        old_signature := some "f(a)" }) = some
      { change_type := .function_removed
        severity := .breaking
        description := "Function 'f' was removed"
        old_location := some "line 3"
        old_signature := some "f(a)" } ∧
    CodeChange.from_dict
      { change_type := "renamed"
        severity := "breaking"
        description := ""
        old_location := none
        new_location := none
        old_signature := none
        new_signature := none
        additional_info := none } = none := by
  refine ⟨change_serialization_roundtrip.1 _, change_serialization_roundtrip.2 _ ?_⟩
  left; rfl

/-! ## API surface model -/

/-- The `_extract_function_info` result record. -/
structure FunctionInfo where
  name : String
  args : List String
  defaults : Nat
  vararg : Option String
  kwarg : Option String
  decorators : List String
  lineno : Nat
  returns : Option String
  docstring : Option String
deriving DecidableEq

/-- The `_extract_class_info` result record. -/
structure ClassInfo where
  name : String
  bases : List String
  decorators : List String
  methods : Dict FunctionInfo
  lineno : Nat
  docstring : Option String
deriving DecidableEq

/-- The `_extract_variable_info` result record. -/
structure VariableInfo where
  value_type : String
  lineno : Nat
  value : Option String
deriving DecidableEq

/-- The `_extract_import_info` result record (the two dict shapes produced for
`import` / `from ... import` share this type; `module` is `some name` for a
direct import and `imported` is populated only for a from-import). -/
structure ImportInfo where
  name : String
  kindTag : String
  module : Option String
  imported : Option (List String)
  lineno : Nat
deriving DecidableEq

/-- The `api` dictionary built by `extract_public_api` (the `constants` slot is
initialized and never populated nor compared). -/
structure ApiSurface where
  functions : Dict FunctionInfo := []
  classes : Dict ClassInfo := []
  /-- the `api['variables']` mapping (`variables` is a reserved word here). -/
  vars : Dict VariableInfo := []
  imports : Dict ImportInfo := []
  constants : Dict VariableInfo := []
deriving DecidableEq

/-! ## Diff engine (`PythonAnalyzer.compare_apis` and helpers) -/

/-- Join `', '.join(args)`. -/
def joinArgs : List String → String
  | [] => ""
  | [a] => a
  | a :: rest => a ++ ", " ++ joinArgs rest

/-- Model of `_format_function_signature`. The Python body aliases the stored parameter
list (`args = func_info['args']`) and appends the variadic markers to it, so
the function both returns the signature string and leaves the record with the
extended `args` list behind; the second component captures that updated
record. Emptiness checks mirror Python string truthiness. -/
def formatFunctionSignature (info : FunctionInfo) : String × FunctionInfo :=
  let args₁ := match info.vararg with
    | some v => if v.isEmpty then info.args else info.args ++ ["*" ++ v]
    | none => info.args
  let args₂ := match info.kwarg with
    | some kw => if kw.isEmpty then args₁ else args₁ ++ ["**" ++ kw]
    | none => args₁
  let sig₀ := info.name ++ "(" ++ joinArgs args₂ ++ ")"
  let sig := match info.returns with
    | some r => if r.isEmpty then sig₀ else sig₀ ++ " -> " ++ r
    | none => sig₀
  (sig, { info with args := args₂ })

/-- The signature string alone. -/
def fmtSig (info : FunctionInfo) : String := (formatFunctionSignature info).1

def functionRemovedChange (name : String) (lineno : Nat) (sig : String) : CodeChange :=
  { change_type := .function_removed
    severity := .breaking
    description := "Function '" ++ name ++ "' was removed"
    old_location := some ("line " ++ toString lineno)
    old_signature := some sig }

def functionAddedChange (name : String) (lineno : Nat) (sig : String) : CodeChange :=
  { change_type := .function_added
    severity := .compatible
    description := "Function '" ++ name ++ "' was added"
    new_location := some ("line " ++ toString lineno)
    new_signature := some sig }

def functionSignatureChangedChange (name : String) (oldLineno newLineno : Nat)
    (oldSig newSig : String) : CodeChange :=
  { change_type := .function_signature_changed
    severity := .breaking
    description := "Function '" ++ name ++ "' signature changed"
    old_location := some ("line " ++ toString oldLineno)
    new_location := some ("line " ++ toString newLineno)
    old_signature := some oldSig
    new_signature := some newSig }

/-- Shared shape of the first two loops of `_compare_functions`
(`for name in d: if name not in checkDict: emit change; format signature`).
Formatting the signature of the looked-up record updates it in place, hence
the threaded dictionary. -/
def fmtFilterLoop (checkDict : Dict FunctionInfo)
    (mk : String → Nat → String → CodeChange) :
    List String → Dict FunctionInfo → List CodeChange × Dict FunctionInfo
  | [], d => ([], d)
  | k :: ks, d =>
    if dictContains checkDict k then fmtFilterLoop checkDict mk ks d
    else
      match dictLookup d k with
      | none => fmtFilterLoop checkDict mk ks d
      | some info =>
        let fmt := formatFunctionSignature info
        let r := fmtFilterLoop checkDict mk ks (dictInsert d k fmt.2)
        (mk k info.lineno fmt.1 :: r.1, r.2)

/-- First loop of `_compare_functions` (removed functions). -/
def functionRemovedLoop (newFuncs : Dict FunctionInfo) :
    List String → Dict FunctionInfo → List CodeChange × Dict FunctionInfo :=
  fmtFilterLoop newFuncs functionRemovedChange

/-- Second loop of `_compare_functions` (added functions). -/
def functionAddedLoop (oldFuncs : Dict FunctionInfo) :
    List String → Dict FunctionInfo → List CodeChange × Dict FunctionInfo :=
  fmtFilterLoop oldFuncs functionAddedChange

/-- Third loop of `_compare_functions` (signature changes). Both records are
formatted (and hence updated) before the signature strings are compared. -/
def functionChangedLoop :
    List String → Dict FunctionInfo → Dict FunctionInfo →
      List CodeChange × Dict FunctionInfo × Dict FunctionInfo
  | [], oldFuncs, newFuncs => ([], oldFuncs, newFuncs)
  | k :: ks, oldFuncs, newFuncs =>
    if dictContains newFuncs k then
      match dictLookup oldFuncs k, dictLookup newFuncs k with
      | some oldInfo, some newInfo =>
        let oldFmt := formatFunctionSignature oldInfo
        let newFmt := formatFunctionSignature newInfo
        let r := functionChangedLoop ks (dictInsert oldFuncs k oldFmt.2)
          (dictInsert newFuncs k newFmt.2)
        if oldFmt.1 = newFmt.1 then r
        else (functionSignatureChangedChange k oldInfo.lineno newInfo.lineno
          oldFmt.1 newFmt.1 :: r.1, r.2)
      | _, _ => functionChangedLoop ks oldFuncs newFuncs
    else functionChangedLoop ks oldFuncs newFuncs

/-- Model of `PythonAnalyzer._compare_functions`; the two extra components are the
function dictionaries after the formatting side effects. -/
def compare_functions (oldFuncs newFuncs : Dict FunctionInfo) :
    List CodeChange × Dict FunctionInfo × Dict FunctionInfo :=
  let r₁ := functionRemovedLoop newFuncs (dictKeys oldFuncs) oldFuncs
  let r₂ := functionAddedLoop r₁.2 (dictKeys newFuncs) newFuncs
  let r₃ := functionChangedLoop (dictKeys r₁.2) r₁.2 r₂.2
  (r₁.1 ++ r₂.1 ++ r₃.1, r₃.2)

def classRemovedChange (name : String) (lineno : Nat) : CodeChange :=
  { change_type := .class_removed
    severity := .breaking
    description := "Class '" ++ name ++ "' was removed"
    old_location := some ("line " ++ toString lineno) }

def classAddedChange (name : String) (lineno : Nat) : CodeChange :=
  { change_type := .class_added
    severity := .compatible
    description := "Class '" ++ name ++ "' was added"
    new_location := some ("line " ++ toString lineno) }

def classInheritanceChangedChange (name : String) (oldLineno newLineno : Nat)
    (oldBases newBases : List String) : CodeChange :=
  { change_type := .class_inheritance_changed
    severity := .breaking
    description := "Class '" ++ name ++ "' inheritance changed"
    old_location := some ("line " ++ toString oldLineno)
    new_location := some ("line " ++ toString newLineno)
    additional_info := some { old_bases := oldBases, new_bases := newBases } }

/-- Python `str.replace`: replace every non-overlapping occurrence, scanning
left to right (explicit fuel = remaining character count keeps the recursion
structural; one character is consumed per step, so the fuel never runs out). -/
def replaceChars (pat repl : List Char) : Nat → List Char → List Char
  | 0, l => l
  | _, [] => []
  | n + 1, l@(c :: rest) =>
    if pat.isPrefixOf l ∧ pat ≠ [] then
      repl ++ replaceChars pat repl n (l.drop pat.length)
    else
      c :: replaceChars pat repl n rest

/-- Python `s.replace(pat, repl)` on strings. -/
def pyReplace (s pat repl : String) : String :=
  ⟨replaceChars pat.data repl.data s.data.length s.data⟩

/-- The in-place promotion of function-level changes to method-level changes in
`_compare_classes` (kind rewrite plus description rewrite). -/
def toMethodChange (className : String) (c : CodeChange) : CodeChange :=
  { c with
    change_type :=
      match c.change_type with
      | .function_removed => ChangeType.method_removed
      | .function_added => ChangeType.method_added
      | .function_signature_changed => ChangeType.method_signature_changed
      | t => t
    description := pyReplace c.description "Function"
      ("Method in class '" ++ className ++ "'") }

/-- Shared shape of the removal/addition loops that carry no side effects
(classes, variables, imports): emit one change per key absent from
`checkDict`, in iteration order. -/
def filterLoop {α : Type} (checkDict : Dict α) (mk : String → α → CodeChange) :
    List String → Dict α → List CodeChange
  | [], _ => []
  | k :: ks, d =>
    if dictContains checkDict k then filterLoop checkDict mk ks d
    else
      match dictLookup d k with
      | some v => mk k v :: filterLoop checkDict mk ks d
      | none => filterLoop checkDict mk ks d

/-- First loop of `_compare_classes` (removed classes); no mutation here. -/
def classRemovedLoop (newClasses : Dict ClassInfo) :
    List String → Dict ClassInfo → List CodeChange :=
  filterLoop newClasses (fun k ci => classRemovedChange k ci.lineno)

/-- Second loop of `_compare_classes` (added classes). -/
def classAddedLoop (oldClasses : Dict ClassInfo) :
    List String → Dict ClassInfo → List CodeChange :=
  filterLoop oldClasses (fun k ci => classAddedChange k ci.lineno)

/-- Third loop of `_compare_classes`: inheritance changes plus the method
comparison, whose formatting side effects update the stored method
dictionaries of the two class records. -/
def classModifiedLoop :
    List String → Dict ClassInfo → Dict ClassInfo →
      List CodeChange × Dict ClassInfo × Dict ClassInfo
  | [], oldClasses, newClasses => ([], oldClasses, newClasses)
  | k :: ks, oldClasses, newClasses =>
    if dictContains newClasses k then
      match dictLookup oldClasses k, dictLookup newClasses k with
      | some oldClass, some newClass =>
        let inh :=
          if oldClass.bases = newClass.bases then []
          else [classInheritanceChangedChange k oldClass.lineno newClass.lineno
            oldClass.bases newClass.bases]
        let mr := compare_functions oldClass.methods newClass.methods
        let methodChanges := mr.1.map (toMethodChange k)
        let r := classModifiedLoop ks
          (dictInsert oldClasses k { oldClass with methods := mr.2.1 })
          (dictInsert newClasses k { newClass with methods := mr.2.2 })
        (inh ++ methodChanges ++ r.1, r.2)
      | _, _ => classModifiedLoop ks oldClasses newClasses
    else classModifiedLoop ks oldClasses newClasses

/-- Model of `PythonAnalyzer._compare_classes`. -/
def compare_classes (oldClasses newClasses : Dict ClassInfo) :
    List CodeChange × Dict ClassInfo × Dict ClassInfo :=
  let cs₁ := classRemovedLoop newClasses (dictKeys oldClasses) oldClasses
  let cs₂ := classAddedLoop oldClasses (dictKeys newClasses) newClasses
  let r₃ := classModifiedLoop (dictKeys oldClasses) oldClasses newClasses
  (cs₁ ++ cs₂ ++ r₃.1, r₃.2)

def variableRemovedChange (name : String) (lineno : Nat) : CodeChange :=
  { change_type := .variable_removed
    severity := .breaking
    description := "Variable '" ++ name ++ "' was removed"
    old_location := some ("line " ++ toString lineno) }

def variableAddedChange (name : String) (lineno : Nat) : CodeChange :=
  { change_type := .variable_added
    severity := .compatible
    description := "Variable '" ++ name ++ "' was added"
    new_location := some ("line " ++ toString lineno) }

def variableRemovedLoop (newVars : Dict VariableInfo) :
    List String → Dict VariableInfo → List CodeChange :=
  filterLoop newVars (fun k vi => variableRemovedChange k vi.lineno)

def variableAddedLoop (oldVars : Dict VariableInfo) :
    List String → Dict VariableInfo → List CodeChange :=
  filterLoop oldVars (fun k vi => variableAddedChange k vi.lineno)

/-- Model of `PythonAnalyzer._compare_variables` (no modification detection, no
mutation). -/
def compare_variables (oldVars newVars : Dict VariableInfo) : List CodeChange :=
  variableRemovedLoop newVars (dictKeys oldVars) oldVars ++
    variableAddedLoop oldVars (dictKeys newVars) newVars

def importRemovedChange (name : String) (lineno : Nat) : CodeChange :=
  { change_type := .import_removed
    severity := .internal
    description := "Import '" ++ name ++ "' was removed"
    old_location := some ("line " ++ toString lineno) }

def importAddedChange (name : String) (lineno : Nat) : CodeChange :=
  { change_type := .import_added
    severity := .internal
    description := "Import '" ++ name ++ "' was added"
    new_location := some ("line " ++ toString lineno) }

def importRemovedLoop (newImports : Dict ImportInfo) :
    List String → Dict ImportInfo → List CodeChange :=
  filterLoop newImports (fun k ii => importRemovedChange k ii.lineno)

def importAddedLoop (oldImports : Dict ImportInfo) :
    List String → Dict ImportInfo → List CodeChange :=
  filterLoop oldImports (fun k ii => importAddedChange k ii.lineno)

/-- Model of `PythonAnalyzer._compare_imports`. -/
def compare_imports (oldImports newImports : Dict ImportInfo) : List CodeChange :=
  importRemovedLoop newImports (dictKeys oldImports) oldImports ++
    importAddedLoop oldImports (dictKeys newImports) newImports

/-- Model of `PythonAnalyzer.compare_apis`. The first component is the returned change
list; the other two components are the input surfaces after the call, exposing
the formatting side effects on the stored function/method records. -/
def compare_apis (old_api new_api : ApiSurface) :
    List CodeChange × ApiSurface × ApiSurface :=
  let rf := compare_functions old_api.functions new_api.functions
  let rc := compare_classes old_api.classes new_api.classes
  let cv := compare_variables old_api.vars new_api.vars
  let ci := compare_imports old_api.imports new_api.imports
  (rf.1 ++ rc.1 ++ cv ++ ci,
   { old_api with functions := rf.2.1, classes := rc.2.1 },
   { new_api with functions := rf.2.2, classes := rc.2.2 })

/-! ## C2 / C1 counterexample / C5 -/

/-- Test fixture: a function record with no keyword-variadic, no decorators,
no return annotation and no doc string. -/
def plainFn (name : String) (args : List String) (defaults : Nat)
    (vararg : Option String) (lineno : Nat) : FunctionInfo :=
  { name := name, args := args, defaults := defaults, vararg := vararg,
    kwarg := none, decorators := [], lineno := lineno, returns := none,
    docstring := none }

/-- C2 (code bug): `compare_apis` is not free of side effects on its inputs.
For a surface whose single function has a `vararg`, the signature formatting
inside the comparison appends the rendered variadic marker to the stored
parameter list (the Python code aliases `func_info['args']`), so the old
surface's function record is left with `args = ["x", "*rest"]` after the call;
a second comparison run on the post-call surface then returns a different
change list than the first run. -/
theorem compare_apis_mutates_stored_args :
    (compare_apis
      { functions := [("g", plainFn "g" ["x"] 0 (some "rest") 1)] } {}).2.1.functions =
      [("g", plainFn "g" ["x", "*rest"] 0 (some "rest") 1)] ∧
    (compare_apis
      { functions := [("g", plainFn "g" ["x"] 0 (some "rest") 1)] } {}).1 ≠
    (compare_apis
      (compare_apis
        { functions := [("g", plainFn "g" ["x"] 0 (some "rest") 1)] } {}).2.1 {}).1 := by
  decide

/-- C1 counterexample: the diff engine emits a `function_removed` change whose
`old_signature` is populated, so signatures are not present only on
signature-changed kinds. -/
theorem removed_change_carries_signature :
    ∃ c ∈ (compare_apis
      { functions := [("f", plainFn "f" [] 0 none 1)] } {}).1,
      c.old_signature.isSome = true ∧
      c.change_type ≠ ChangeType.function_signature_changed ∧
      c.change_type ≠ ChangeType.method_signature_changed := by
  refine ⟨functionRemovedChange "f" 1 "f()", by decide⟩

theorem sigTwoThreeNe (f a b c : String) :
    f ++ "(" ++ (a ++ ", " ++ b) ++ ")" ≠
      f ++ "(" ++ (a ++ ", " ++ (b ++ ", " ++ c)) ++ ")" := by
  intro h
  have hl := congrArg String.length h
  have h₂ : String.length ", " = 2 := by decide
  simp only [String.length_append, h₂] at hl
  omega

/-- Behavior of `_compare_functions` on singleton dictionaries sharing their key: only the
signature-change check fires. -/
theorem compare_functions_singleton_changed (k : String) (oi ni : FunctionInfo)
    (h : fmtSig oi ≠ fmtSig ni) :
    (compare_functions [(k, oi)] [(k, ni)]).1 =
      [functionSignatureChangedChange k oi.lineno ni.lineno (fmtSig oi) (fmtSig ni)] := by
  simp only [fmtSig] at h
  simp [compare_functions, functionRemovedLoop, functionAddedLoop, fmtFilterLoop,
        functionChangedLoop, dictContains, dictLookup, dictInsert, fmtSig, h]

/-- C5: an old surface holding exactly one function `f(a, b)` (no defaults, no
variadics, no return annotation) against a new surface holding `f(a, b, c)`
with one trailing default produces exactly one change: a Breaking
`function_signature_changed` whose old signature renders `f(a, b)` and whose
new signature renders `f(a, b, c)` — the default value itself never appears in
the canonical signature. -/
theorem signature_change_end_to_end (f a b c : String) (l₁ l₂ : Nat) :
    (compare_apis
      { functions := [(f, plainFn f [a, b] 0 none l₁)] }
      { functions := [(f, plainFn f [a, b, c] 1 none l₂)] }).1 =
    [{ change_type := .function_signature_changed
       severity := .breaking
       description := "Function '" ++ f ++ "' signature changed"
       old_location := some ("line " ++ toString l₁)
       new_location := some ("line " ++ toString l₂)
       old_signature := some (f ++ "(" ++ (a ++ ", " ++ b) ++ ")")
       new_signature := some (f ++ "(" ++ (a ++ ", " ++ (b ++ ", " ++ c)) ++ ")") }] := by
  have hfo : fmtSig (plainFn f [a, b] 0 none l₁) =
      f ++ "(" ++ (a ++ ", " ++ b) ++ ")" := rfl
  have hfn : fmtSig (plainFn f [a, b, c] 1 none l₂) =
      f ++ "(" ++ (a ++ ", " ++ (b ++ ", " ++ c)) ++ ")" := rfl
  have hne : fmtSig (plainFn f [a, b] 0 none l₁) ≠
      fmtSig (plainFn f [a, b, c] 1 none l₂) := by
    rw [hfo, hfn]; exact sigTwoThreeNe f a b c
  have hmain := compare_functions_singleton_changed f _ _ hne
  have hl : ∀ (n : String) (as : List String) (d : Nat) (v : Option String) (l : Nat),
      (plainFn n as d v l).lineno = l := fun _ _ _ _ _ => rfl
  simp [compare_apis, compare_classes, compare_variables, compare_imports,
        classRemovedLoop, classAddedLoop, classModifiedLoop, variableRemovedLoop,
        variableAddedLoop, importRemovedLoop, importAddedLoop, filterLoop, hmain,
        hl, hfo, hfn, functionSignatureChangedChange]

/-! ## Spec-side ordering contract (second definition, following §4.4 of the
spec: removals in old-surface key order, then additions in new-surface key
order, then modifications in old-surface key order, categories in the fixed
order functions, classes, variables, imports). -/

def specFunctionRemovals (oldFuncs newFuncs : Dict FunctionInfo) : List CodeChange :=
  oldFuncs.filterMap (fun p =>
    if dictContains newFuncs p.1 then none
    else some (functionRemovedChange p.1 p.2.lineno (formatFunctionSignature p.2).1))

def specFunctionAdditions (oldFuncs newFuncs : Dict FunctionInfo) : List CodeChange :=
  newFuncs.filterMap (fun p =>
    if dictContains oldFuncs p.1 then none
    else some (functionAddedChange p.1 p.2.lineno (formatFunctionSignature p.2).1))

def specFunctionModifications (oldFuncs newFuncs : Dict FunctionInfo) : List CodeChange :=
  oldFuncs.filterMap (fun p =>
    match dictLookup newFuncs p.1 with
    | none => none
    | some ni =>
      if (formatFunctionSignature p.2).1 = (formatFunctionSignature ni).1 then none
      else some (functionSignatureChangedChange p.1 p.2.lineno ni.lineno
        (formatFunctionSignature p.2).1 (formatFunctionSignature ni).1))

/-- The function-category diff in spec order (also reused for methods). -/
def specFunctionDiff (oldFuncs newFuncs : Dict FunctionInfo) : List CodeChange :=
  specFunctionRemovals oldFuncs newFuncs ++ specFunctionAdditions oldFuncs newFuncs ++
    specFunctionModifications oldFuncs newFuncs

def specClassRemovals (oldClasses newClasses : Dict ClassInfo) : List CodeChange :=
  oldClasses.filterMap (fun p =>
    if dictContains newClasses p.1 then none
    else some (classRemovedChange p.1 p.2.lineno))

def specClassAdditions (oldClasses newClasses : Dict ClassInfo) : List CodeChange :=
  newClasses.filterMap (fun p =>
    if dictContains oldClasses p.1 then none
    else some (classAddedChange p.1 p.2.lineno))

def specClassModifications (oldClasses newClasses : Dict ClassInfo) : List CodeChange :=
  oldClasses.flatMap (fun p =>
    match dictLookup newClasses p.1 with
    | none => []
    | some nc =>
      (if p.2.bases = nc.bases then []
       else [classInheritanceChangedChange p.1 p.2.lineno nc.lineno p.2.bases nc.bases]) ++
      (specFunctionDiff p.2.methods nc.methods).map (toMethodChange p.1))

def specVariableRemovals (oldVars newVars : Dict VariableInfo) : List CodeChange :=
  oldVars.filterMap (fun p =>
    if dictContains newVars p.1 then none
    else some (variableRemovedChange p.1 p.2.lineno))

def specVariableAdditions (oldVars newVars : Dict VariableInfo) : List CodeChange :=
  newVars.filterMap (fun p =>
    if dictContains oldVars p.1 then none
    else some (variableAddedChange p.1 p.2.lineno))

def specImportRemovals (oldImports newImports : Dict ImportInfo) : List CodeChange :=
  oldImports.filterMap (fun p =>
    if dictContains newImports p.1 then none
    else some (importRemovedChange p.1 p.2.lineno))

def specImportAdditions (oldImports newImports : Dict ImportInfo) : List CodeChange :=
  newImports.filterMap (fun p =>
    if dictContains oldImports p.1 then none
    else some (importAddedChange p.1 p.2.lineno))

/-- The full diff in the order promised by the spec. -/
def specDiff (old_api new_api : ApiSurface) : List CodeChange :=
  specFunctionRemovals old_api.functions new_api.functions ++
    specFunctionAdditions old_api.functions new_api.functions ++
    specFunctionModifications old_api.functions new_api.functions ++
    specClassRemovals old_api.classes new_api.classes ++
    specClassAdditions old_api.classes new_api.classes ++
    specClassModifications old_api.classes new_api.classes ++
    specVariableRemovals old_api.vars new_api.vars ++
    specVariableAdditions old_api.vars new_api.vars ++
    specImportRemovals old_api.imports new_api.imports ++
    specImportAdditions old_api.imports new_api.imports

/-- Python-dict validity of an association list: keys are unique. -/
def dictWF {α : Type} (d : Dict α) : Prop := (dictKeys d).Nodup

instance {α : Type} (d : Dict α) : Decidable (dictWF d) := by
  unfold dictWF; infer_instance

/-- A surface is dict-valid when all five mappings (and every stored method
table) have unique keys — automatically true of every Python-built surface. -/
def ApiSurface.WF (s : ApiSurface) : Prop :=
  dictWF s.functions ∧ dictWF s.classes ∧ dictWF s.vars ∧ dictWF s.imports ∧
    ∀ p ∈ s.classes, dictWF p.2.methods

instance (s : ApiSurface) : Decidable s.WF := by
  unfold ApiSurface.WF; infer_instance

/-- Congruence for `flatMap`. -/
theorem flatMapCongr {α β : Type} {l : List α} {f g : α → List β}
    (h : ∀ a ∈ l, f a = g a) : l.flatMap f = l.flatMap g := by
  induction l with
  | nil => rfl
  | cons a l ih =>
    simp only [List.flatMap_cons, h a (List.mem_cons_self a l)]
    rw [ih (fun a ha => h a (List.mem_cons_of_mem _ ha))]

/-- The `flatMap` analogue of `keysFilterMap`. -/
theorem keysFlatMap {α β : Type} (d : Dict α) (g : String → α → List β)
    (h : (dictKeys d).Nodup) :
    (dictKeys d).flatMap (fun k =>
        match dictLookup d k with
        | some v => g k v
        | none => []) =
      d.flatMap (fun p => g p.1 p.2) := by
  induction d with
  | nil => rfl
  | cons p rest ih =>
    obtain ⟨k₀, v₀⟩ := p
    rw [dictKeys_cons, List.nodup_cons] at h
    obtain ⟨hk₀, hrest⟩ := h
    rw [dictKeys_cons, List.flatMap_cons, List.flatMap_cons]
    have hself : dictLookup ((k₀, v₀) :: rest) k₀ = some v₀ := by
      simp [dictLookup]
    have htail : (dictKeys rest).flatMap (fun k =>
        match dictLookup ((k₀, v₀) :: rest) k with
        | some v => g k v
        | none => []) =
        (dictKeys rest).flatMap (fun k =>
        match dictLookup rest k with
        | some v => g k v
        | none => []) := by
      apply flatMapCongr
      intro k hk
      have hne : ¬ k₀ = k := fun hEq => hk₀ (hEq ▸ hk)
      simp [dictLookup, hne]
    simp only [hself, htail, ih hrest]

/-! ## Characterization of the loops against the spec-side ordering -/

theorem dictLookup_eq_none_of_not_contains {α : Type} {d : Dict α} {k : String}
    (h : dictContains d k = false) : dictLookup d k = none := by
  rw [dictContains] at h
  cases hl : dictLookup d k with
  | none => rfl
  | some v => rw [hl] at h; simp at h

theorem filterLoop_changes {α : Type} (checkDict : Dict α)
    (mk : String → α → CodeChange) (ks : List String) (d : Dict α) :
    filterLoop checkDict mk ks d = ks.filterMap (fun k =>
      match dictLookup d k with
      | some v => if dictContains checkDict k then none else some (mk k v)
      | none => none) := by
  induction ks with
  | nil => rfl
  | cons k ks ih =>
    simp only [List.filterMap_cons, filterLoop]
    cases hc : dictContains checkDict k <;>
      cases hl : dictLookup d k <;>
        simp [hc, hl, ih]

theorem fmtFilterLoop_changes (checkDict : Dict FunctionInfo)
    (mk : String → Nat → String → CodeChange) (ks : List String)
    (d : Dict FunctionInfo) (h : ks.Nodup) :
    (fmtFilterLoop checkDict mk ks d).1 = ks.filterMap (fun k =>
      match dictLookup d k with
      | some info =>
        if dictContains checkDict k then none
        else some (mk k info.lineno (formatFunctionSignature info).1)
      | none => none) := by
  induction ks generalizing d with
  | nil => rfl
  | cons k ks ih =>
    rw [List.nodup_cons] at h
    obtain ⟨hk, hks⟩ := h
    simp only [List.filterMap_cons, fmtFilterLoop]
    cases hc : dictContains checkDict k
    · cases hl : dictLookup d k with
      | none => simp [hc, hl, ih _ hks]
      | some info =>
        have hcongr : ks.filterMap (fun k' =>
            match dictLookup (dictInsert d k (formatFunctionSignature info).2) k' with
            | some i =>
              if dictContains checkDict k' then none
              else some (mk k' i.lineno (formatFunctionSignature i).1)
            | none => none) =
          ks.filterMap (fun k' =>
            match dictLookup d k' with
            | some i =>
              if dictContains checkDict k' then none
              else some (mk k' i.lineno (formatFunctionSignature i).1)
            | none => none) := by
          apply filterMapCongr
          intro k' hk'
          rw [dictLookup_insert_ne _ _ (fun hEq => hk (by rw [hEq]; exact hk'))]
        simp [hc, hl, ih _ hks, hcongr]
    · cases hl : dictLookup d k <;> simp [hc, hl, ih _ hks]

/-- The formatting loops never add or remove dictionary entries. -/
theorem fmtFilterLoop_keys (checkDict : Dict FunctionInfo)
    (mk : String → Nat → String → CodeChange) (ks : List String)
    (d : Dict FunctionInfo) (h : ∀ k ∈ ks, k ∈ dictKeys d) :
    dictKeys (fmtFilterLoop checkDict mk ks d).2 = dictKeys d := by
  induction ks generalizing d with
  | nil => rfl
  | cons k ks ih =>
    have hkd : k ∈ dictKeys d := h k (List.mem_cons_self k ks)
    have hrest : ∀ k' ∈ ks, k' ∈ dictKeys d :=
      fun k' hk' => h k' (List.mem_cons_of_mem _ hk')
    simp only [fmtFilterLoop]
    cases hc : dictContains checkDict k
    · cases hl : dictLookup d k with
      | none => simp [hc, hl, ih d hrest]
      | some info =>
        have hkeys := dictKeys_insert_mem d k (formatFunctionSignature info).2 hkd
        have hrest' : ∀ k' ∈ ks,
            k' ∈ dictKeys (dictInsert d k (formatFunctionSignature info).2) := by
          intro k' hk'; rw [hkeys]; exact hrest k' hk'
        simp [hc, hl, ih _ hrest', hkeys]
    · simp [hc, ih d hrest]

/-- The formatting loops only rewrite entries whose key is absent from
`checkDict`: lookups at keys present in `checkDict` are untouched. -/
theorem fmtFilterLoop_lookup (checkDict : Dict FunctionInfo)
    (mk : String → Nat → String → CodeChange) (ks : List String)
    (d : Dict FunctionInfo) (p : String) (hp : dictContains checkDict p = true) :
    dictLookup (fmtFilterLoop checkDict mk ks d).2 p = dictLookup d p := by
  induction ks generalizing d with
  | nil => rfl
  | cons k ks ih =>
    simp only [fmtFilterLoop]
    cases hc : dictContains checkDict k
    · cases hl : dictLookup d k with
      | none => simp [hc, hl, ih d]
      | some info =>
        have hne : k ≠ p := fun hEq => by rw [hEq, hp] at hc; cases hc
        simp only [hc, hl]
        simp only [Bool.false_eq_true, if_false]
        rw [ih _]
        exact dictLookup_insert_ne d _ hne
    · simp [hc, ih d]

theorem functionChangedLoop_changes (ks : List String)
    (oldFuncs newFuncs : Dict FunctionInfo) (h : ks.Nodup) :
    (functionChangedLoop ks oldFuncs newFuncs).1 = ks.filterMap (fun k =>
      match dictLookup oldFuncs k with
      | some oi =>
        match dictLookup newFuncs k with
        | none => none
        | some ni =>
          if (formatFunctionSignature oi).1 = (formatFunctionSignature ni).1 then none
          else some (functionSignatureChangedChange k oi.lineno ni.lineno
            (formatFunctionSignature oi).1 (formatFunctionSignature ni).1)
      | none => none) := by
  induction ks generalizing oldFuncs newFuncs with
  | nil => rfl
  | cons k ks ih =>
    rw [List.nodup_cons] at h
    obtain ⟨hk, hks⟩ := h
    simp only [List.filterMap_cons, functionChangedLoop]
    cases hc : dictContains newFuncs k
    · have hln : dictLookup newFuncs k = none := dictLookup_eq_none_of_not_contains hc
      cases hlo : dictLookup oldFuncs k <;> simp [hc, hlo, hln, ih _ _ hks]
    · cases hlo : dictLookup oldFuncs k with
      | none =>
        cases hln : dictLookup newFuncs k <;> simp [hc, hlo, hln, ih _ _ hks]
      | some oi =>
        cases hln : dictLookup newFuncs k with
        | none =>
          rw [dictContains, hln] at hc; cases hc
        | some ni =>
          have hcongr : ks.filterMap (fun k' =>
              match dictLookup (dictInsert oldFuncs k (formatFunctionSignature oi).2) k' with
              | some oi' =>
                match dictLookup (dictInsert newFuncs k (formatFunctionSignature ni).2) k' with
                | none => none
                | some ni' =>
                  if (formatFunctionSignature oi').1 = (formatFunctionSignature ni').1 then none
                  else some (functionSignatureChangedChange k' oi'.lineno ni'.lineno
                    (formatFunctionSignature oi').1 (formatFunctionSignature ni').1)
              | none => none) =
            ks.filterMap (fun k' =>
              match dictLookup oldFuncs k' with
              | some oi' =>
                match dictLookup newFuncs k' with
                | none => none
                | some ni' =>
                  if (formatFunctionSignature oi').1 = (formatFunctionSignature ni').1 then none
                  else some (functionSignatureChangedChange k' oi'.lineno ni'.lineno
                    (formatFunctionSignature oi').1 (formatFunctionSignature ni').1)
              | none => none) := by
            apply filterMapCongr
            intro k' hk'
            have hne : k ≠ k' := fun hEq => hk (by rw [hEq]; exact hk')
            rw [dictLookup_insert_ne _ _ hne, dictLookup_insert_ne _ _ hne]
          by_cases hsig : (formatFunctionSignature oi).1 = (formatFunctionSignature ni).1 <;>
            simp [hc, hlo, hln, hsig, ih _ _ hks, hcongr]

theorem classModifiedLoop_changes (ks : List String)
    (oldClasses newClasses : Dict ClassInfo) (h : ks.Nodup) :
    (classModifiedLoop ks oldClasses newClasses).1 = ks.flatMap (fun k =>
      match dictLookup oldClasses k with
      | some oc =>
        match dictLookup newClasses k with
        | none => []
        | some nc =>
          (if oc.bases = nc.bases then []
           else [classInheritanceChangedChange k oc.lineno nc.lineno oc.bases nc.bases]) ++
            (compare_functions oc.methods nc.methods).1.map (toMethodChange k)
      | none => []) := by
  induction ks generalizing oldClasses newClasses with
  | nil => rfl
  | cons k ks ih =>
    rw [List.nodup_cons] at h
    obtain ⟨hk, hks⟩ := h
    simp only [List.flatMap_cons, classModifiedLoop]
    cases hc : dictContains newClasses k
    · have hln : dictLookup newClasses k = none := dictLookup_eq_none_of_not_contains hc
      cases hlo : dictLookup oldClasses k <;> simp [hc, hlo, hln, ih _ _ hks]
    · cases hlo : dictLookup oldClasses k with
      | none =>
        cases hln : dictLookup newClasses k <;> simp [hc, hlo, hln, ih _ _ hks]
      | some oc =>
        cases hln : dictLookup newClasses k with
        | none =>
          rw [dictContains, hln] at hc; cases hc
        | some nc =>
          have hcongr : ks.flatMap (fun k' =>
              match dictLookup (dictInsert oldClasses k
                  { oc with methods := (compare_functions oc.methods nc.methods).2.1 }) k' with
              | some oc' =>
                match dictLookup (dictInsert newClasses k
                    { nc with methods := (compare_functions oc.methods nc.methods).2.2 }) k' with
                | none => []
                | some nc' =>
                  (if oc'.bases = nc'.bases then []
                   else [classInheritanceChangedChange k' oc'.lineno nc'.lineno
                     oc'.bases nc'.bases]) ++
                    (compare_functions oc'.methods nc'.methods).1.map (toMethodChange k')
              | none => []) =
            ks.flatMap (fun k' =>
              match dictLookup oldClasses k' with
              | some oc' =>
                match dictLookup newClasses k' with
                | none => []
                | some nc' =>
                  (if oc'.bases = nc'.bases then []
                   else [classInheritanceChangedChange k' oc'.lineno nc'.lineno
                     oc'.bases nc'.bases]) ++
                    (compare_functions oc'.methods nc'.methods).1.map (toMethodChange k')
              | none => []) := by
            apply flatMapCongr
            intro k' hk'
            have hne : k ≠ k' := fun hEq => hk (by rw [hEq]; exact hk')
            rw [dictLookup_insert_ne _ _ hne, dictLookup_insert_ne _ _ hne]
          simp [hc, hlo, hln, ih _ _ hks, hcongr]

/-- The loop `_compare_functions` emits, in order: removals in old key order, additions
in new key order, modifications in old key order — and the formatting side
effects never leak into the emitted changes. -/
theorem compare_functions_changes (oldFuncs newFuncs : Dict FunctionInfo)
    (ho : dictWF oldFuncs) (hn : dictWF newFuncs) :
    (compare_functions oldFuncs newFuncs).1 = specFunctionDiff oldFuncs newFuncs := by
  have hkeys1 : dictKeys (fmtFilterLoop newFuncs functionRemovedChange
      (dictKeys oldFuncs) oldFuncs).2 = dictKeys oldFuncs :=
    fmtFilterLoop_keys _ _ _ _ (fun k hk => hk)
  have h1 : (fmtFilterLoop newFuncs functionRemovedChange (dictKeys oldFuncs) oldFuncs).1 =
      specFunctionRemovals oldFuncs newFuncs := by
    rw [fmtFilterLoop_changes _ _ _ _ ho]
    refine Eq.trans (filterMapCongr fun k hk => ?_)
      (keysFilterMap oldFuncs (fun k info =>
        if dictContains newFuncs k then none
        else some (functionRemovedChange k info.lineno (formatFunctionSignature info).1)) ho)
    cases dictLookup oldFuncs k <;> rfl
  have h2 : (fmtFilterLoop (fmtFilterLoop newFuncs functionRemovedChange
      (dictKeys oldFuncs) oldFuncs).2 functionAddedChange (dictKeys newFuncs) newFuncs).1 =
      specFunctionAdditions oldFuncs newFuncs := by
    rw [fmtFilterLoop_changes _ _ _ _ hn]
    simp only [dictContains_congr hkeys1]
    refine Eq.trans (filterMapCongr fun k hk => ?_)
      (keysFilterMap newFuncs (fun k info =>
        if dictContains oldFuncs k then none
        else some (functionAddedChange k info.lineno (formatFunctionSignature info).1)) hn)
    cases dictLookup newFuncs k <;> rfl
  have hkeys2 : dictKeys (fmtFilterLoop (fmtFilterLoop newFuncs functionRemovedChange
      (dictKeys oldFuncs) oldFuncs).2 functionAddedChange (dictKeys newFuncs) newFuncs).2 =
      dictKeys newFuncs :=
    fmtFilterLoop_keys _ _ _ _ (fun k hk => hk)
  have h3 : (functionChangedLoop
      (dictKeys (fmtFilterLoop newFuncs functionRemovedChange (dictKeys oldFuncs) oldFuncs).2)
      (fmtFilterLoop newFuncs functionRemovedChange (dictKeys oldFuncs) oldFuncs).2
      (fmtFilterLoop (fmtFilterLoop newFuncs functionRemovedChange
        (dictKeys oldFuncs) oldFuncs).2 functionAddedChange (dictKeys newFuncs) newFuncs).2).1 =
      specFunctionModifications oldFuncs newFuncs := by
    rw [hkeys1, functionChangedLoop_changes _ _ _ ho]
    have hpt : ∀ k ∈ dictKeys oldFuncs,
        (match dictLookup (fmtFilterLoop newFuncs functionRemovedChange
            (dictKeys oldFuncs) oldFuncs).2 k with
        | some oi =>
          match dictLookup (fmtFilterLoop (fmtFilterLoop newFuncs functionRemovedChange
              (dictKeys oldFuncs) oldFuncs).2 functionAddedChange
              (dictKeys newFuncs) newFuncs).2 k with
          | none => none
          | some ni =>
            if (formatFunctionSignature oi).1 = (formatFunctionSignature ni).1 then none
            else some (functionSignatureChangedChange k oi.lineno ni.lineno
              (formatFunctionSignature oi).1 (formatFunctionSignature ni).1)
        | none => none) =
        (match dictLookup oldFuncs k with
        | some oi =>
          match dictLookup newFuncs k with
          | none => none
          | some ni =>
            if (formatFunctionSignature oi).1 = (formatFunctionSignature ni).1 then none
            else some (functionSignatureChangedChange k oi.lineno ni.lineno
              (formatFunctionSignature oi).1 (formatFunctionSignature ni).1)
        | none => none) := by
      intro k hkmem
      cases hcn : dictContains newFuncs k
      · have hln : dictLookup newFuncs k = none := dictLookup_eq_none_of_not_contains hcn
        have hln2 : dictLookup (fmtFilterLoop (fmtFilterLoop newFuncs functionRemovedChange
            (dictKeys oldFuncs) oldFuncs).2 functionAddedChange
            (dictKeys newFuncs) newFuncs).2 k = none := by
          apply dictLookup_eq_none_of_not_contains
          rw [dictContains_congr hkeys2 k]; exact hcn
        cases hlo1 : dictLookup (fmtFilterLoop newFuncs functionRemovedChange
            (dictKeys oldFuncs) oldFuncs).2 k <;>
          cases hlo2 : dictLookup oldFuncs k <;>
            simp [hln, hln2]
      · have hl1 : dictLookup (fmtFilterLoop newFuncs functionRemovedChange
            (dictKeys oldFuncs) oldFuncs).2 k = dictLookup oldFuncs k :=
          fmtFilterLoop_lookup _ _ _ _ k hcn
        have hcd1 : dictContains (fmtFilterLoop newFuncs functionRemovedChange
            (dictKeys oldFuncs) oldFuncs).2 k = true := by
          rw [dictContains_congr hkeys1 k]
          exact (dictContains_iff_mem _ _).2 hkmem
        have hl2 : dictLookup (fmtFilterLoop (fmtFilterLoop newFuncs functionRemovedChange
            (dictKeys oldFuncs) oldFuncs).2 functionAddedChange
            (dictKeys newFuncs) newFuncs).2 k = dictLookup newFuncs k :=
          fmtFilterLoop_lookup _ _ _ _ k hcd1
        rw [hl1, hl2]
    refine Eq.trans (filterMapCongr hpt) ?_
    refine Eq.trans (filterMapCongr fun k hk => ?_)
      (keysFilterMap oldFuncs (fun k oi =>
        match dictLookup newFuncs k with
        | none => none
        | some ni =>
          if (formatFunctionSignature oi).1 = (formatFunctionSignature ni).1 then none
          else some (functionSignatureChangedChange k oi.lineno ni.lineno
            (formatFunctionSignature oi).1 (formatFunctionSignature ni).1)) ho)
    cases dictLookup oldFuncs k <;> rfl
  simp only [compare_functions, functionRemovedLoop, functionAddedLoop]
  rw [h1, h2, h3]
  rfl

/-- The loop `_compare_classes` emits removals, additions, then per-class modification
blocks (inheritance change followed by promoted method changes), and the
per-class method comparison follows the same spec order. -/
theorem compare_classes_changes (oldClasses newClasses : Dict ClassInfo)
    (ho : dictWF oldClasses) (hn : dictWF newClasses)
    (hom : ∀ p ∈ oldClasses, dictWF p.2.methods)
    (hnm : ∀ p ∈ newClasses, dictWF p.2.methods) :
    (compare_classes oldClasses newClasses).1 =
      specClassRemovals oldClasses newClasses ++ specClassAdditions oldClasses newClasses ++
        specClassModifications oldClasses newClasses := by
  have h1 : classRemovedLoop newClasses (dictKeys oldClasses) oldClasses =
      specClassRemovals oldClasses newClasses := by
    rw [classRemovedLoop, filterLoop_changes]
    refine Eq.trans (filterMapCongr fun k hk => ?_)
      (keysFilterMap oldClasses (fun k ci =>
        if dictContains newClasses k then none
        else some (classRemovedChange k ci.lineno)) ho)
    cases dictLookup oldClasses k <;> rfl
  have h2 : classAddedLoop oldClasses (dictKeys newClasses) newClasses =
      specClassAdditions oldClasses newClasses := by
    rw [classAddedLoop, filterLoop_changes]
    refine Eq.trans (filterMapCongr fun k hk => ?_)
      (keysFilterMap newClasses (fun k ci =>
        if dictContains oldClasses k then none
        else some (classAddedChange k ci.lineno)) hn)
    cases dictLookup newClasses k <;> rfl
  have h3 : (classModifiedLoop (dictKeys oldClasses) oldClasses newClasses).1 =
      specClassModifications oldClasses newClasses := by
    rw [classModifiedLoop_changes _ _ _ ho]
    refine Eq.trans (flatMapCongr fun k hk => ?_) (Eq.trans
      (keysFlatMap oldClasses (fun k oc =>
        match dictLookup newClasses k with
        | none => []
        | some nc =>
          (if oc.bases = nc.bases then []
           else [classInheritanceChangedChange k oc.lineno nc.lineno oc.bases nc.bases]) ++
            (compare_functions oc.methods nc.methods).1.map (toMethodChange k)) ho) ?_)
    case _ => cases dictLookup oldClasses k <;> rfl
    apply flatMapCongr
    intro p hp
    cases hln : dictLookup newClasses p.1 with
    | none => simp only [hln]
    | some nc =>
      have hwf1 : dictWF p.2.methods := hom p hp
      have hwf2 : dictWF nc.methods := hnm (p.1, nc) (dictLookup_mem hln)
      simp only [hln, compare_functions_changes _ _ hwf1 hwf2]
  show classRemovedLoop newClasses (dictKeys oldClasses) oldClasses ++ _ ++ _ = _
  rw [h1, h2, h3]

theorem compare_variables_changes (oldVars newVars : Dict VariableInfo)
    (ho : dictWF oldVars) (hn : dictWF newVars) :
    compare_variables oldVars newVars =
      specVariableRemovals oldVars newVars ++ specVariableAdditions oldVars newVars := by
  unfold compare_variables variableRemovedLoop variableAddedLoop
  rw [filterLoop_changes, filterLoop_changes]
  congr 1
  · refine Eq.trans (filterMapCongr fun k hk => ?_)
      (keysFilterMap oldVars (fun k vi =>
        if dictContains newVars k then none
        else some (variableRemovedChange k vi.lineno)) ho)
    cases dictLookup oldVars k <;> rfl
  · refine Eq.trans (filterMapCongr fun k hk => ?_)
      (keysFilterMap newVars (fun k vi =>
        if dictContains oldVars k then none
        else some (variableAddedChange k vi.lineno)) hn)
    cases dictLookup newVars k <;> rfl

theorem compare_imports_changes (oldImports newImports : Dict ImportInfo)
    (ho : dictWF oldImports) (hn : dictWF newImports) :
    compare_imports oldImports newImports =
      specImportRemovals oldImports newImports ++ specImportAdditions oldImports newImports := by
  unfold compare_imports importRemovedLoop importAddedLoop
  rw [filterLoop_changes, filterLoop_changes]
  congr 1
  · refine Eq.trans (filterMapCongr fun k hk => ?_)
      (keysFilterMap oldImports (fun k ii =>
        if dictContains newImports k then none
        else some (importRemovedChange k ii.lineno)) ho)
    cases dictLookup oldImports k <;> rfl
  · refine Eq.trans (filterMapCongr fun k hk => ?_)
      (keysFilterMap newImports (fun k ii =>
        if dictContains oldImports k then none
        else some (importAddedChange k ii.lineno)) hn)
    cases dictLookup newImports k <;> rfl

/-- Full characterization of `compare_apis` on dict-valid surfaces: the change
list is exactly the spec-side ordered diff. -/
theorem compare_apis_changes (old_api new_api : ApiSurface)
    (ho : old_api.WF) (hn : new_api.WF) :
    (compare_apis old_api new_api).1 = specDiff old_api new_api := by
  obtain ⟨hof, hoc, hov, hoi, hom⟩ := ho
  obtain ⟨hnf, hnc, hnv, hni, hnm⟩ := hn
  show (compare_functions old_api.functions new_api.functions).1 ++
      (compare_classes old_api.classes new_api.classes).1 ++
      compare_variables old_api.vars new_api.vars ++
      compare_imports old_api.imports new_api.imports = _
  rw [compare_functions_changes _ _ hof hnf,
    compare_classes_changes _ _ hoc hnc hom hnm,
    compare_variables_changes _ _ hov hnv,
    compare_imports_changes _ _ hoi hni]
  simp only [specDiff, specFunctionDiff, List.append_assoc]

/-- Every change in the spec-ordered diff is built by one of the eleven
constructors (method changes being promoted function changes). -/
theorem specDiff_shape (old_api new_api : ApiSurface) :
    ∀ c ∈ specDiff old_api new_api,
      (∃ k l s, c = functionRemovedChange k l s) ∨
      (∃ k l s, c = functionAddedChange k l s) ∨
      (∃ k l₁ l₂ s₁ s₂, c = functionSignatureChangedChange k l₁ l₂ s₁ s₂) ∨
      (∃ k l, c = classRemovedChange k l) ∨
      (∃ k l, c = classAddedChange k l) ∨
      (∃ k l₁ l₂ b₁ b₂, c = classInheritanceChangedChange k l₁ l₂ b₁ b₂) ∨
      (∃ cn k l s, c = toMethodChange cn (functionRemovedChange k l s)) ∨
      (∃ cn k l s, c = toMethodChange cn (functionAddedChange k l s)) ∨
      (∃ cn k l₁ l₂ s₁ s₂, c = toMethodChange cn (functionSignatureChangedChange k l₁ l₂ s₁ s₂)) ∨
      (∃ k l, c = variableRemovedChange k l) ∨
      (∃ k l, c = variableAddedChange k l) ∨
      (∃ k l, c = importRemovedChange k l) ∨
      (∃ k l, c = importAddedChange k l) := by
  have hfn : ∀ (oF nF : Dict FunctionInfo), ∀ c ∈ specFunctionDiff oF nF,
      (∃ k l s, c = functionRemovedChange k l s) ∨
      (∃ k l s, c = functionAddedChange k l s) ∨
      (∃ k l₁ l₂ s₁ s₂, c = functionSignatureChangedChange k l₁ l₂ s₁ s₂) := by
    intro oF nF c hc
    rw [specFunctionDiff, List.mem_append, List.mem_append] at hc
    rcases hc with (hc | hc) | hc
    · rw [specFunctionRemovals, List.mem_filterMap] at hc
      obtain ⟨p, hp, heq⟩ := hc
      split at heq
      · cases heq
      · exact Or.inl ⟨p.1, p.2.lineno, _, (Option.some_inj.1 heq).symm⟩
    · rw [specFunctionAdditions, List.mem_filterMap] at hc
      obtain ⟨p, hp, heq⟩ := hc
      split at heq
      · cases heq
      · exact Or.inr (Or.inl ⟨p.1, p.2.lineno, _, (Option.some_inj.1 heq).symm⟩)
    · rw [specFunctionModifications, List.mem_filterMap] at hc
      obtain ⟨p, hp, heq⟩ := hc
      cases hln : dictLookup nF p.1 with
      | none => simp [hln] at heq
      | some ni =>
        simp only [hln] at heq
        split at heq
        · cases heq
        · exact Or.inr (Or.inr ⟨p.1, p.2.lineno, ni.lineno, _, _,
            (Option.some_inj.1 heq).symm⟩)
  intro c hc
  simp only [specDiff, List.mem_append] at hc
  rcases hc with ((((((((hc | hc) | hc) | hc) | hc) | hc) | hc) | hc) | hc) | hc
  · -- function removals
    rw [specFunctionRemovals, List.mem_filterMap] at hc
    obtain ⟨p, hp, heq⟩ := hc
    split at heq
    · cases heq
    · exact Or.inl ⟨p.1, p.2.lineno, _, (Option.some_inj.1 heq).symm⟩
  · rw [specFunctionAdditions, List.mem_filterMap] at hc
    obtain ⟨p, hp, heq⟩ := hc
    split at heq
    · cases heq
    · exact Or.inr (Or.inl ⟨p.1, p.2.lineno, _, (Option.some_inj.1 heq).symm⟩)
  · rw [specFunctionModifications, List.mem_filterMap] at hc
    obtain ⟨p, hp, heq⟩ := hc
    cases hln : dictLookup new_api.functions p.1 with
    | none => simp [hln] at heq
    | some ni =>
      simp only [hln] at heq
      split at heq
      · cases heq
      · exact Or.inr (Or.inr (Or.inl ⟨p.1, p.2.lineno, ni.lineno, _, _,
          (Option.some_inj.1 heq).symm⟩))
  · rw [specClassRemovals, List.mem_filterMap] at hc
    obtain ⟨p, hp, heq⟩ := hc
    split at heq
    · cases heq
    · refine Or.inr (Or.inr (Or.inr (Or.inl ⟨p.1, p.2.lineno, ?_⟩)))
      exact (Option.some_inj.1 heq).symm
  · rw [specClassAdditions, List.mem_filterMap] at hc
    obtain ⟨p, hp, heq⟩ := hc
    split at heq
    · cases heq
    · refine Or.inr (Or.inr (Or.inr (Or.inr (Or.inl ⟨p.1, p.2.lineno, ?_⟩))))
      exact (Option.some_inj.1 heq).symm
  · -- class modifications: inheritance change or promoted method change
    rw [specClassModifications, List.mem_flatMap] at hc
    obtain ⟨p, hp, hin⟩ := hc
    cases hln : dictLookup new_api.classes p.1 with
    | none => simp [hln] at hin
    | some nc =>
      simp only [hln] at hin
      rw [List.mem_append] at hin
      rcases hin with hin | hin
      · split at hin
        · cases hin
        · rw [List.mem_singleton] at hin
          exact Or.inr (Or.inr (Or.inr (Or.inr (Or.inr (Or.inl
            ⟨p.1, p.2.lineno, nc.lineno, p.2.bases, nc.bases, hin⟩)))))
      · rw [List.mem_map] at hin
        obtain ⟨fc, hfc, rfl⟩ := hin
        rcases hfn _ _ fc hfc with ⟨k, l, s, rfl⟩ | ⟨k, l, s, rfl⟩ | ⟨k, l₁, l₂, s₁, s₂, rfl⟩
        · exact Or.inr (Or.inr (Or.inr (Or.inr (Or.inr (Or.inr (Or.inl
            ⟨p.1, k, l, s, rfl⟩))))))
        · exact Or.inr (Or.inr (Or.inr (Or.inr (Or.inr (Or.inr (Or.inr (Or.inl
            ⟨p.1, k, l, s, rfl⟩)))))))
        · exact Or.inr (Or.inr (Or.inr (Or.inr (Or.inr (Or.inr (Or.inr (Or.inr (Or.inl
            ⟨p.1, k, l₁, l₂, s₁, s₂, rfl⟩))))))))
  · rw [specVariableRemovals, List.mem_filterMap] at hc
    obtain ⟨p, hp, heq⟩ := hc
    split at heq
    · cases heq
    · refine Or.inr (Or.inr (Or.inr (Or.inr (Or.inr (Or.inr (Or.inr (Or.inr (Or.inr (Or.inl
        ⟨p.1, p.2.lineno, ?_⟩)))))))))
      exact (Option.some_inj.1 heq).symm
  · rw [specVariableAdditions, List.mem_filterMap] at hc
    obtain ⟨p, hp, heq⟩ := hc
    split at heq
    · cases heq
    · refine Or.inr (Or.inr (Or.inr (Or.inr (Or.inr (Or.inr (Or.inr (Or.inr (Or.inr (Or.inr
        (Or.inl ⟨p.1, p.2.lineno, ?_⟩))))))))))
      exact (Option.some_inj.1 heq).symm
  · rw [specImportRemovals, List.mem_filterMap] at hc
    obtain ⟨p, hp, heq⟩ := hc
    split at heq
    · cases heq
    · refine Or.inr (Or.inr (Or.inr (Or.inr (Or.inr (Or.inr (Or.inr (Or.inr (Or.inr (Or.inr
        (Or.inr (Or.inl ⟨p.1, p.2.lineno, ?_⟩)))))))))))
      exact (Option.some_inj.1 heq).symm
  · rw [specImportAdditions, List.mem_filterMap] at hc
    obtain ⟨p, hp, heq⟩ := hc
    split at heq
    · cases heq
    · refine Or.inr (Or.inr (Or.inr (Or.inr (Or.inr (Or.inr (Or.inr (Or.inr (Or.inr (Or.inr
        (Or.inr (Or.inr ⟨p.1, p.2.lineno, ?_⟩)))))))))))
      exact (Option.some_inj.1 heq).symm

/-- C4: on dict-valid surfaces, `compare_apis` emits its changes category by
category in the fixed order functions, classes, variables, imports, and within
each category all removals in old-surface key order, then all additions in
new-surface key order, then all modifications in old-surface key order (for
the categories with modification detection). -/
theorem diff_order_contract (old_api new_api : ApiSurface)
    (ho : old_api.WF) (hn : new_api.WF) :
    (compare_apis old_api new_api).1 = specDiff old_api new_api :=
  compare_apis_changes old_api new_api ho hn

/-- Witness for C4 at concrete surfaces. -/
theorem diff_order_contract_witness :
    ApiSurface.WF { functions := [("f", plainFn "f" ["x"] 0 none 1)],
                    vars := [("v", { value_type := "Constant", lineno := 2, value := some "1" })] } ∧
    ApiSurface.WF { functions := [("g", plainFn "g" [] 0 none 3)] } ∧
    (compare_apis
      { functions := [("f", plainFn "f" ["x"] 0 none 1)],
        vars := [("v", { value_type := "Constant", lineno := 2, value := some "1" })] }
      { functions := [("g", plainFn "g" [] 0 none 3)] }).1 =
    specDiff
      { functions := [("f", plainFn "f" ["x"] 0 none 1)],
        vars := [("v", { value_type := "Constant", lineno := 2, value := some "1" })] }
      { functions := [("g", plainFn "g" [] 0 none 3)] } :=
  ⟨by decide, by decide, diff_order_contract _ _ (by decide) (by decide)⟩

/-- C1 (amended): every change carries at least one location; `old_signature`
is populated only on function/method removed and signature-changed kinds, and
`new_signature` only on function/method added and signature-changed kinds
(class, variable and import changes never carry signatures — but removed/added
function and method changes do, which is where the original claim fails). -/
theorem change_field_discipline (old_api new_api : ApiSurface)
    (ho : old_api.WF) (hn : new_api.WF) :
    ∀ c ∈ (compare_apis old_api new_api).1,
      (c.old_location.isSome = true ∨ c.new_location.isSome = true) ∧
      (c.old_signature.isSome = true →
        c.change_type = ChangeType.function_removed ∨
        c.change_type = ChangeType.method_removed ∨
        c.change_type = ChangeType.function_signature_changed ∨
        c.change_type = ChangeType.method_signature_changed) ∧
      (c.new_signature.isSome = true →
        c.change_type = ChangeType.function_added ∨
        c.change_type = ChangeType.method_added ∨
        c.change_type = ChangeType.function_signature_changed ∨
        c.change_type = ChangeType.method_signature_changed) := by
  intro c hc
  rw [compare_apis_changes _ _ ho hn] at hc
  rcases specDiff_shape _ _ c hc with
    ⟨k, l, s, rfl⟩ | ⟨k, l, s, rfl⟩ | ⟨k, l₁, l₂, s₁, s₂, rfl⟩ | ⟨k, l, rfl⟩ | ⟨k, l, rfl⟩ |
    ⟨k, l₁, l₂, b₁, b₂, rfl⟩ | ⟨cn, k, l, s, rfl⟩ | ⟨cn, k, l, s, rfl⟩ |
    ⟨cn, k, l₁, l₂, s₁, s₂, rfl⟩ | ⟨k, l, rfl⟩ | ⟨k, l, rfl⟩ | ⟨k, l, rfl⟩ | ⟨k, l, rfl⟩ <;>
    simp [functionRemovedChange, functionAddedChange, functionSignatureChangedChange,
      classRemovedChange, classAddedChange, classInheritanceChangedChange, toMethodChange,
      variableRemovedChange, variableAddedChange, importRemovedChange, importAddedChange]

/-- Witness for C1's amended theorem at a concrete change of the diff of two
concrete surfaces. -/
theorem change_field_discipline_witness :
    ((functionRemovedChange "f" 1 "f()").old_location.isSome = true ∨
      (functionRemovedChange "f" 1 "f()").new_location.isSome = true) ∧
    ((functionRemovedChange "f" 1 "f()").old_signature.isSome = true →
      (functionRemovedChange "f" 1 "f()").change_type = ChangeType.function_removed ∨
      (functionRemovedChange "f" 1 "f()").change_type = ChangeType.method_removed ∨
      (functionRemovedChange "f" 1 "f()").change_type = ChangeType.function_signature_changed ∨
      (functionRemovedChange "f" 1 "f()").change_type = ChangeType.method_signature_changed) ∧
    ((functionRemovedChange "f" 1 "f()").new_signature.isSome = true →
      (functionRemovedChange "f" 1 "f()").change_type = ChangeType.function_added ∨
      (functionRemovedChange "f" 1 "f()").change_type = ChangeType.method_added ∨
      (functionRemovedChange "f" 1 "f()").change_type = ChangeType.function_signature_changed ∨
      (functionRemovedChange "f" 1 "f()").change_type = ChangeType.method_signature_changed) :=
  change_field_discipline { functions := [("f", plainFn "f" [] 0 none 1)] } {}
    (by decide) (by decide) (functionRemovedChange "f" 1 "f()") (by decide)

/-- C7: the comparison rules assign only Breaking, Compatible or Internal —
no change produced by `compare_apis` ever has Patch severity. -/
theorem no_patch_severity (old_api new_api : ApiSurface)
    (ho : old_api.WF) (hn : new_api.WF) :
    ∀ c ∈ (compare_apis old_api new_api).1, c.severity ≠ SeverityLevel.patch := by
  intro c hc
  rw [compare_apis_changes _ _ ho hn] at hc
  rcases specDiff_shape _ _ c hc with
    ⟨k, l, s, rfl⟩ | ⟨k, l, s, rfl⟩ | ⟨k, l₁, l₂, s₁, s₂, rfl⟩ | ⟨k, l, rfl⟩ | ⟨k, l, rfl⟩ |
    ⟨k, l₁, l₂, b₁, b₂, rfl⟩ | ⟨cn, k, l, s, rfl⟩ | ⟨cn, k, l, s, rfl⟩ |
    ⟨cn, k, l₁, l₂, s₁, s₂, rfl⟩ | ⟨k, l, rfl⟩ | ⟨k, l, rfl⟩ | ⟨k, l, rfl⟩ | ⟨k, l, rfl⟩ <;>
    simp [functionRemovedChange, functionAddedChange, functionSignatureChangedChange,
      classRemovedChange, classAddedChange, classInheritanceChangedChange, toMethodChange,
      variableRemovedChange, variableAddedChange, importRemovedChange, importAddedChange]

/-- Witness for C7 at a concrete change of a concrete comparison. -/
theorem no_patch_severity_witness :
    (functionAddedChange "h" 2 "h()").severity ≠ SeverityLevel.patch :=
  no_patch_severity {} { functions := [("h", plainFn "h" [] 0 none 2)] }
    (by decide) (by decide) (functionAddedChange "h" 2 "h()") (by decide)

/-! ## Python AST model and `extract_public_api`

Statements are modelled with their extraction-relevant attributes inlined
(decorators, base classes and return annotations are carried as their
source-text rendering, i.e. what `_ast_to_string` produces; the docstring is
carried directly, standing for `ast.get_docstring`; for assignments the
runtime-kind tag of the value expression and the optional rendering of
literal-like values stand for `type(node.value).__name__` and the
`hasattr(..., 'n') or hasattr(..., 's')` branch of `_extract_variable_info`).
Expressions contain no statements in Python, so the statement skeleton is
sufficient for `ast.walk`'s isinstance dispatch. `compound` stands for any
other statement with a nested body (`if`/`for`/`while`/`try`/`with`). Import
statements always name at least one alias, hence the `first`/`rest` split;
local aliases (`asname`) are never read by the analyzer and are omitted. -/

inductive PyTarget : Type where
  | name (id : String) : PyTarget
  | other : PyTarget

mutual
inductive PyStmt : Type where
  | functionDef (name : String) (args : List String) (defaults : Nat)
      (vararg kwarg : Option String) (decorators : List String) (lineno : Nat)
      (returns : Option String) (docstring : Option String) (body : PyBody) : PyStmt
  | classDef (name : String) (bases decorators : List String) (lineno : Nat)
      (docstring : Option String) (body : PyBody) : PyStmt
  | assign (targets : List PyTarget) (valueTypeTag : String) (lineno : Nat)
      (renderedValue : Option String) : PyStmt
  | importStmt (first : String) (rest : List String) (lineno : Nat) : PyStmt
  | importFrom (module : Option String) (first : String) (rest : List String)
      (lineno : Nat) : PyStmt
  | compound (body : PyBody) : PyStmt

inductive PyBody : Type where
  | nil : PyBody
  | cons (s : PyStmt) (rest : PyBody) : PyBody
end

def bodyToList : PyBody → List PyStmt
  | .nil => []
  | .cons s rest => s :: bodyToList rest

/-- The statement children visited by `ast.iter_child_nodes` (restricted to
statements: expression children contain no further statements). -/
def stmtChildren : PyStmt → List PyStmt
  | .functionDef _ _ _ _ _ _ _ _ _ b => bodyToList b
  | .classDef _ _ _ _ _ b => bodyToList b
  | .compound b => bodyToList b
  | _ => []

mutual
def stmtWeight : PyStmt → Nat
  | .functionDef _ _ _ _ _ _ _ _ _ b => 1 + bodyWeight b
  | .classDef _ _ _ _ _ b => 1 + bodyWeight b
  | .compound b => 1 + bodyWeight b
  | .assign _ _ _ _ => 1
  | .importStmt _ _ _ => 1
  | .importFrom _ _ _ _ => 1

def bodyWeight : PyBody → Nat
  | .nil => 0
  | .cons s rest => stmtWeight s + bodyWeight rest
end

def listWeight (l : List PyStmt) : Nat := (l.map stmtWeight).sum

/-- One BFS step per fuel unit: emit the current queue level, recurse on the
concatenated children. -/
def walkGo : Nat → List PyStmt → List PyStmt
  | 0, _ => []
  | _, [] => []
  | fuel + 1, level => level ++ walkGo fuel (level.flatMap stmtChildren)

/-- Model of `ast.walk` in breadth-first order over the statement skeleton, started
from the module's body (the module node itself matches none of the isinstance
checks). The fuel `listWeight` bounds the number of BFS levels: every level
holds at least one node of weight ≥ 1 and strictly loses total weight, so the
traversal is never truncated (`walkGo_fuel` below). -/
def pyWalk (body : List PyStmt) : List PyStmt := walkGo (listWeight body) body

theorem stmtWeight_pos (s : PyStmt) : 1 ≤ stmtWeight s := by
  cases s <;> simp [stmtWeight]

@[simp] theorem listWeight_nil : listWeight [] = 0 := rfl

theorem listWeight_bodyToList : ∀ b : PyBody, listWeight (bodyToList b) = bodyWeight b
  | .nil => rfl
  | .cons s rest => by
    simp [bodyToList, listWeight, bodyWeight] at listWeight_bodyToList rest ⊢
    have := listWeight_bodyToList rest
    simp [listWeight] at this
    omega

theorem childrenWeight (s : PyStmt) : listWeight (stmtChildren s) + 1 ≤ stmtWeight s := by
  cases s <;> simp [stmtChildren, stmtWeight, listWeight_bodyToList] <;> omega

theorem levelWeight (level : List PyStmt) :
    listWeight (level.flatMap stmtChildren) + level.length ≤ listWeight level := by
  induction level with
  | nil => simp [listWeight]
  | cons s rest ih =>
    have hs := childrenWeight s
    simp only [List.flatMap_cons, listWeight, List.map_append, List.sum_append,
      List.map_cons, List.sum_cons, List.length_cons] at hs ih ⊢
    omega

/-- The fuel choice in `pyWalk` is irrelevant as long as it covers the total
weight: the breadth-first traversal is fully determined. -/
theorem walkGo_fuel (f₁ : Nat) : ∀ (f₂ : Nat) (level : List PyStmt),
    listWeight level ≤ f₁ → listWeight level ≤ f₂ → walkGo f₁ level = walkGo f₂ level := by
  induction f₁ with
  | zero =>
    intro f₂ level h₁ h₂
    cases level with
    | nil => cases f₂ <;> rfl
    | cons s rest =>
      exfalso
      have := stmtWeight_pos s
      simp [listWeight] at h₁
      omega
  | succ f₁ ih =>
    intro f₂ level h₁ h₂
    cases level with
    | nil => cases f₂ <;> rfl
    | cons s rest =>
      cases f₂ with
      | zero =>
        exfalso
        have := stmtWeight_pos s
        simp [listWeight] at h₂
        omega
      | succ f₂ =>
        simp only [walkGo]
        have hlw := levelWeight (s :: rest)
        rw [ih f₂ ((s :: rest).flatMap stmtChildren) (by simp at hlw ⊢; omega)
          (by simp at hlw ⊢; omega)]

/-- Test `name.startswith('_')`. -/
def startsWithUnderscore (s : String) : Bool :=
  match s.data with
  | [] => false
  | c :: _ => c == '_'

/-- The method table of `_extract_class_info`: public `FunctionDef` items of the
class body, in order. -/
def classMethods (body : List PyStmt) : Dict FunctionInfo :=
  body.foldl (fun m s =>
    match s with
    | .functionDef name args defaults vararg kwarg decorators lineno returns docstring _ =>
      if startsWithUnderscore name then m
      else dictInsert m name
        { name := name, args := args, defaults := defaults, vararg := vararg,
          kwarg := kwarg, decorators := decorators, lineno := lineno,
          returns := returns, docstring := docstring }
    | _ => m) []

/-- One iteration of the `ast.walk` loop of `extract_public_api`: the
isinstance dispatch and the dict updates. The function/class records are
`_extract_function_info` / `_extract_class_info` field for field; the import
records are `_extract_import_info` (keyed by the first alias name, resp. the
`module.firstName` composite, Python truthiness on the module string). -/
def apiStep (api : ApiSurface) (s : PyStmt) : ApiSurface :=
  match s with
  | .functionDef name args defaults vararg kwarg decorators lineno returns docstring _ =>
    if startsWithUnderscore name then api
    else
      let info : FunctionInfo :=
        { name := name, args := args, defaults := defaults, vararg := vararg,
          kwarg := kwarg, decorators := decorators, lineno := lineno,
          returns := returns, docstring := docstring }
      { api with functions := dictInsert api.functions name info }
  | .classDef name bases decorators lineno docstring body =>
    if startsWithUnderscore name then api
    else
      let info : ClassInfo :=
        { name := name, bases := bases, decorators := decorators,
          methods := classMethods (bodyToList body), lineno := lineno,
          docstring := docstring }
      { api with classes := dictInsert api.classes name info }
  | .assign targets valueTypeTag lineno renderedValue =>
    targets.foldl (fun api t =>
      match t with
      | .name id =>
        if startsWithUnderscore id then api
        else
          let vi : VariableInfo :=
            { value_type := valueTypeTag, lineno := lineno, value := renderedValue }
          { api with vars := dictInsert api.vars id vi }
      | .other => api) api
  | .importStmt first _ lineno =>
    let info : ImportInfo :=
      { name := first, kindTag := "import", module := some first,
        imported := none, lineno := lineno }
    { api with imports := dictInsert api.imports first info }
  | .importFrom module first rest lineno =>
    let iname := match module with
      | some m => if m.isEmpty then first else m ++ "." ++ first
      | none => first
    let info : ImportInfo :=
      { name := iname, kindTag := "from_import", module := module,
        imported := some (first :: rest), lineno := lineno }
    { api with imports := dictInsert api.imports iname info }
  | .compound _ => api

/-- Model of `PythonAnalyzer.extract_public_api`, applied to a parsed module's body. -/
def extract_public_api (moduleBody : List PyStmt) : ApiSurface :=
  (pyWalk moduleBody).foldl apiStep
    { functions := [], classes := [], vars := [], imports := [], constants := [] }

/-- C3 (code bug): `extract_public_api` walks the entire tree (`ast.walk`), so
a public method of a class is also recorded in the module-level functions
mapping, a function nested inside a function is recorded there as well, and an
assignment inside a function body is recorded in the variables mapping —
contradicting the spec's top-level-only surface. -/
theorem extraction_includes_nested :
    dictContains (extract_public_api
      [.classDef "C" [] [] 1 none
        (.cons (.functionDef "m" ["self"] 0 none none [] 2 none none .nil) .nil)]).functions
      "m" = true ∧
    dictContains (extract_public_api
      [.functionDef "outer" [] 0 none none [] 1 none none
        (.cons (.functionDef "inner" [] 0 none none [] 2 none none .nil)
          (.cons (.assign [.name "v"] "Constant" 3 none) .nil))]).functions
      "inner" = true ∧
    dictContains (extract_public_api
      [.functionDef "outer" [] 0 none none [] 1 none none
        (.cons (.assign [.name "v"] "Constant" 3 none) .nil)]).vars
      "v" = true := by
  decide

/-- C10: an `import a, b` statement is recorded as exactly one imports entry,
keyed by the first alias name; a `from m import a, b` is recorded under the
single key `m.a` with every imported name kept only inside that entry's
imported-names list; consequently, adding a later name to the same from-import
statement changes no imports key and the comparison emits no import change. -/
theorem import_records_first_name_only (a b c m : String) (l₁ l₂ : Nat) :
    (extract_public_api [.importStmt a [b] l₁]).imports =
      [(a, { name := a, kindTag := "import", module := some a,
             imported := none, lineno := l₁ })] ∧
    (extract_public_api [.importFrom (some m) a [b] l₁]).imports =
      [((if m.isEmpty then a else m ++ "." ++ a),
        { name := (if m.isEmpty then a else m ++ "." ++ a), kindTag := "from_import",
          module := some m, imported := some [a, b], lineno := l₁ })] ∧
    (compare_apis (extract_public_api [.importFrom (some m) a [b] l₁])
      (extract_public_api [.importFrom (some m) a [b, c] l₂])).1 = [] := by
  refine ⟨rfl, rfl, ?_⟩
  have e1 : extract_public_api [.importFrom (some m) a [b] l₁] =
      { functions := [], classes := [], vars := [], constants := [],
        imports := [((if m.isEmpty then a else m ++ "." ++ a),
          { name := (if m.isEmpty then a else m ++ "." ++ a), kindTag := "from_import",
            module := some m, imported := some [a, b], lineno := l₁ })] } := rfl
  have e2 : extract_public_api [.importFrom (some m) a [b, c] l₂] =
      { functions := [], classes := [], vars := [], constants := [],
        imports := [((if m.isEmpty then a else m ++ "." ++ a),
          { name := (if m.isEmpty then a else m ++ "." ++ a), kindTag := "from_import",
            module := some m, imported := some [a, b, c], lineno := l₂ })] } := rfl
  rw [e1, e2]
  simp [compare_apis, compare_functions, compare_classes, compare_variables,
    compare_imports, functionRemovedLoop, functionAddedLoop, functionChangedLoop,
    fmtFilterLoop, classRemovedLoop, classAddedLoop, classModifiedLoop, filterLoop,
    variableRemovedLoop, variableAddedLoop, importRemovedLoop, importAddedLoop,
    dictContains, dictLookup]

/-! ## `ASTDiffAnalyzer.generate_report` -/

/-- The fixed severity display order of the report. -/
def severityOrder : List SeverityLevel :=
  [.breaking, .compatible, .patch, .internal]

/-- The `by_severity` group for one severity: the changes with that severity,
in original order (Python's group-by-append preserves within-group order, and
`severity in by_severity` holds exactly when this list is non-empty). -/
def severityGroup (changes : List CodeChange) (s : SeverityLevel) : List CodeChange :=
  changes.filter (fun c => decide (c.severity = s))

/-- The report lines for one change: description, location lines for truthy
location strings, signature lines only when both signatures are truthy, and a
blank separator. -/
def changeLines (c : CodeChange) : List String :=
  ["• " ++ c.description] ++
    (match c.old_location with
     | some l => if l.isEmpty then [] else ["  Old: " ++ l]
     | none => []) ++
    (match c.new_location with
     | some l => if l.isEmpty then [] else ["  New: " ++ l]
     | none => []) ++
    (match c.old_signature, c.new_signature with
     | some s₁, some s₂ =>
       if s₁.isEmpty || s₂.isEmpty then []
       else ["  Old signature: " ++ s₁, "  New signature: " ++ s₂]
     | _, _ => []) ++
    [""]

/-- The lines of one severity block (header, dashes, blocks, trailing blank);
nothing when the group is absent. -/
def groupLines (changes : List CodeChange) (s : SeverityLevel) : List String :=
  let group := severityGroup changes s
  if group.isEmpty then []
  else [s.value.toUpper ++ " CHANGES:", String.mk (List.replicate 20 '-')] ++
    group.flatMap changeLines ++ [""]

/-- Model of `ASTDiffAnalyzer.generate_report`. -/
def generate_report (changes : List CodeChange) : String :=
  if changes.isEmpty then "No breaking changes detected."
  else String.intercalate "\n"
    (["Breaking Changes Analysis Report", String.mk (List.replicate 40 '='), ""] ++
      severityOrder.flatMap (groupLines changes))

/-- The order in which changes are rendered by `generate_report`: the severity
groups concatenated in display order. -/
def reportChanges (changes : List CodeChange) : List CodeChange :=
  severityOrder.flatMap (severityGroup changes)

/-- Position of a severity in the display order. -/
def sevRank : SeverityLevel → Nat
  | .breaking => 0
  | .compatible => 1
  | .patch => 2
  | .internal => 3

theorem pairwiseConst {α : Type} (R : α → α → Prop) (l : List α)
    (h : ∀ a ∈ l, ∀ b ∈ l, R a b) : l.Pairwise R := by
  induction l with
  | nil => exact List.Pairwise.nil
  | cons a l ih =>
    constructor
    · intro b hb
      exact h a (List.mem_cons_self a l) b (List.mem_cons_of_mem _ hb)
    · exact ih (fun x hx y hy =>
        h x (List.mem_cons_of_mem _ hx) y (List.mem_cons_of_mem _ hy))

theorem severityGroup_mem {changes : List CodeChange} {s : SeverityLevel}
    {c : CodeChange} (h : c ∈ severityGroup changes s) : c.severity = s := by
  rw [severityGroup, List.mem_filter] at h
  exact of_decide_eq_true h.2

/-- C9: `generate_report` on the empty list is the fixed sentinel; on a
non-empty list it renders the header plus the severity blocks in display
order, and the rendered change sequence (`reportChanges`) is monotone in the
severity ranking — every Breaking change precedes every Compatible one,
Compatible precedes Patch, Patch precedes Internal. -/
theorem report_severity_order :
    generate_report [] = "No breaking changes detected." ∧
    (∀ changes : List CodeChange, changes.isEmpty = false →
      generate_report changes = String.intercalate "\n"
        (["Breaking Changes Analysis Report", String.mk (List.replicate 40 '='), ""] ++
          severityOrder.flatMap (groupLines changes))) ∧
    (∀ changes : List CodeChange,
      List.Pairwise (fun c₁ c₂ => sevRank c₁.severity ≤ sevRank c₂.severity)
        (reportChanges changes)) := by
  refine ⟨rfl, ?_, ?_⟩
  · intro changes h
    simp [generate_report, h]
  · intro changes
    have hpw : ∀ s, List.Pairwise
        (fun c₁ c₂ => sevRank c₁.severity ≤ sevRank c₂.severity)
        (severityGroup changes s) := by
      intro s
      refine pairwiseConst _ _ (fun a ha b hb => ?_)
      rw [severityGroup_mem ha, severityGroup_mem hb]
    simp only [reportChanges, severityOrder, List.flatMap_cons, List.flatMap_nil,
      List.append_nil]
    rw [List.pairwise_append]
    refine ⟨hpw _, ?_, ?_⟩
    · rw [List.pairwise_append]
      refine ⟨hpw _, ?_, ?_⟩
      · rw [List.pairwise_append]
        refine ⟨hpw _, hpw _, ?_⟩
        intro a ha b hb
        rw [severityGroup_mem ha, severityGroup_mem hb]
        decide
      · intro a ha b hb
        rw [List.mem_append] at hb
        rw [severityGroup_mem ha]
        rcases hb with hb | hb <;> rw [severityGroup_mem hb] <;> decide
    · intro a ha b hb
      rw [severityGroup_mem ha]
      simp [sevRank]

/-- Witness for C9's non-empty rendering clause at a concrete change list. -/
theorem report_severity_order_witness :
    generate_report [functionRemovedChange "f" 1 "f()"] = String.intercalate "\n"
      (["Breaking Changes Analysis Report", String.mk (List.replicate 40 '='), ""] ++
        severityOrder.flatMap (groupLines [functionRemovedChange "f" 1 "f()"])) :=
  report_severity_order.2.1 [functionRemovedChange "f" 1 "f()"] (by decide)

/-! ## `ASTDiffAnalyzer.analyze_directory_changes` -/

/-- Model of `analyze_directory_changes`, abstracted over the file system and the
per-pair analysis: `old_files` lists the files matched under the old root (in
`rglob` order over the patterns), `new_has` tells whether the same relative
path exists under the new root, and `analyze` is the `analyze_breaking_changes`
call for the pair, either returning its change list or raising (modelled by
`Except`, the message standing for `str(e)`). Returns the result mapping
together with the diagnostics printed along the way. -/
def analyze_directory_changes (new_has : String → Bool)
    (analyze : String → Except String (List CodeChange)) :
    List String → Dict (List CodeChange) → List String →
      Dict (List CodeChange) × List String
  | [], results, diags => (results, diags)
  | f :: rest, results, diags =>
    if new_has f then
      match analyze f with
      | .ok changes =>
        if changes.isEmpty then
          analyze_directory_changes new_has analyze rest results diags
        else
          analyze_directory_changes new_has analyze rest
            (dictInsert results f changes) diags
      | .error e =>
        analyze_directory_changes new_has analyze rest results
          (diags ++ ["Error analyzing " ++ f ++ ": " ++ e])
    else analyze_directory_changes new_has analyze rest results diags

theorem dictContains_insert {α : Type} (d : Dict α) (k p : String) (v : α) :
    dictContains (dictInsert d k v) p = true ↔ p = k ∨ dictContains d p = true := by
  rw [dictContains, dictLookup_insert]
  by_cases h : k = p
  · subst h; simp
  · rw [if_neg h, dictContains]
    constructor
    · intro hx; exact Or.inr hx
    · intro hx
      rcases hx with hx | hx
      · exact absurd hx.symm h
      · exact hx

theorem adc_contains (new_has : String → Bool)
    (analyze : String → Except String (List CodeChange)) :
    ∀ (files : List String) (results : Dict (List CodeChange))
      (diags : List String) (p : String),
    dictContains (analyze_directory_changes new_has analyze files results diags).1 p = true ↔
      (dictContains results p = true ∨
        (p ∈ files ∧ new_has p = true ∧
          ∃ cs, analyze p = Except.ok cs ∧ cs ≠ [])) := by
  intro files
  induction files with
  | nil =>
    intro results diags p
    simp [analyze_directory_changes]
  | cons f rest ih =>
    intro results diags p
    simp only [analyze_directory_changes]
    by_cases hnh : new_has f = true
    · rw [if_pos hnh]
      cases haz : analyze f with
      | ok cs =>
        by_cases hemp : cs.isEmpty = true
        · simp only [hemp, if_true]
          rw [ih]
          constructor
          · rintro (h | ⟨hm, hrest⟩)
            · exact Or.inl h
            · exact Or.inr ⟨List.mem_cons_of_mem _ hm, hrest⟩
          · rintro (h | ⟨hm, hhas, cs', haz', hne'⟩)
            · exact Or.inl h
            · rcases List.mem_cons.1 hm with rfl | hm
              · rw [haz] at haz'
                cases haz'
                cases cs
                · exact absurd rfl hne'
                · exact absurd hemp (by simp)
              · exact Or.inr ⟨hm, hhas, cs', haz', hne'⟩
        · simp only [hemp, Bool.false_eq_true, if_false]
          rw [ih, dictContains_insert]
          have hne : cs ≠ [] := fun h => by rw [h] at hemp; exact hemp rfl
          constructor
          · rintro ((rfl | h) | ⟨hm, hrest⟩)
            · exact Or.inr ⟨List.mem_cons_self _ _, hnh, cs, haz, hne⟩
            · exact Or.inl h
            · exact Or.inr ⟨List.mem_cons_of_mem _ hm, hrest⟩
          · rintro (h | ⟨hm, hhas, cs', haz', hne'⟩)
            · exact Or.inl (Or.inr h)
            · rcases List.mem_cons.1 hm with rfl | hm
              · exact Or.inl (Or.inl rfl)
              · exact Or.inr ⟨hm, hhas, cs', haz', hne'⟩
      | error e =>
        rw [ih]
        constructor
        · rintro (h | ⟨hm, hrest⟩)
          · exact Or.inl h
          · exact Or.inr ⟨List.mem_cons_of_mem _ hm, hrest⟩
        · rintro (h | ⟨hm, hhas, cs', haz', hne'⟩)
          · exact Or.inl h
          · rcases List.mem_cons.1 hm with rfl | hm
            · rw [haz] at haz'; cases haz'
            · exact Or.inr ⟨hm, hhas, cs', haz', hne'⟩
    · rw [if_neg hnh, ih]
      constructor
      · rintro (h | ⟨hm, hrest⟩)
        · exact Or.inl h
        · exact Or.inr ⟨List.mem_cons_of_mem _ hm, hrest⟩
      · rintro (h | ⟨hm, hhas, hok⟩)
        · exact Or.inl h
        · rcases List.mem_cons.1 hm with rfl | hm
          · exact absurd hhas hnh
          · exact Or.inr ⟨hm, hhas, hok⟩

theorem adc_diags (new_has : String → Bool)
    (analyze : String → Except String (List CodeChange)) :
    ∀ (files : List String) (results : Dict (List CodeChange)) (diags : List String),
    (analyze_directory_changes new_has analyze files results diags).2 =
      diags ++ files.filterMap (fun f =>
        if new_has f then
          match analyze f with
          | .ok _ => none
          | .error e => some ("Error analyzing " ++ f ++ ": " ++ e)
        else none) := by
  intro files
  induction files with
  | nil => intro results diags; simp [analyze_directory_changes]
  | cons f rest ih =>
    intro results diags
    simp only [analyze_directory_changes, List.filterMap_cons]
    by_cases hnh : new_has f = true
    · rw [if_pos hnh]
      cases haz : analyze f with
      | ok cs =>
        by_cases hemp : cs.isEmpty = true
        · simp only [hemp, if_true]
          simp [hnh, haz, ih]
        · simp only [hemp, Bool.false_eq_true, if_false]
          simp [hnh, haz, ih]
      | error e =>
        simp [hnh, haz, ih]
    · rw [if_neg hnh]
      simp [hnh, ih]

/-- C8: the result mapping of the tree comparison holds an entry for a
relative path iff the path was matched under the old root, exists under the
new root, its pair analysis succeeds, and the change list is non-empty; a
missing counterpart is skipped with neither an error nor an entry, and a
per-pair failure contributes exactly one diagnostic and never aborts the scan
(the diagnostics are precisely the failures of the existing pairs, in order). -/
theorem directory_scan_contract (new_has : String → Bool)
    (analyze : String → Except String (List CodeChange))
    (old_files : List String) (p : String) :
    (dictContains (analyze_directory_changes new_has analyze old_files [] []).1 p = true ↔
      (p ∈ old_files ∧ new_has p = true ∧
        ∃ cs, analyze p = Except.ok cs ∧ cs ≠ [])) ∧
    (analyze_directory_changes new_has analyze old_files [] []).2 =
      old_files.filterMap (fun f =>
        if new_has f then
          match analyze f with
          | .ok _ => none
          | .error e => some ("Error analyzing " ++ f ++ ": " ++ e)
        else none) := by
  constructor
  · rw [adc_contains new_has analyze old_files [] [] p]
    simp [dictContains, dictLookup]
  · exact adc_diags new_has analyze old_files [] []

/-- Witness for C8: a three-file scan with one missing counterpart and one
failing pair. -/
theorem directory_scan_contract_witness :
    (dictContains (analyze_directory_changes
        (fun f => decide (f ≠ "pkg/b.py"))
        (fun f => if f = "pkg/c.py" then Except.error "boom"
          else Except.ok [functionRemovedChange "x" 1 "x()"])
        ["pkg/a.py", "pkg/b.py", "pkg/c.py"] [] []).1 "pkg/a.py" = true ↔
      ("pkg/a.py" ∈ ["pkg/a.py", "pkg/b.py", "pkg/c.py"] ∧
        (fun f => decide (f ≠ "pkg/b.py")) "pkg/a.py" = true ∧
        ∃ cs, (fun f => if f = "pkg/c.py" then Except.error "boom"
          else Except.ok [functionRemovedChange "x" 1 "x()"]) "pkg/a.py" =
            Except.ok cs ∧ cs ≠ [])) ∧
    (analyze_directory_changes
        (fun f => decide (f ≠ "pkg/b.py"))
        (fun f => if f = "pkg/c.py" then Except.error "boom"
          else Except.ok [functionRemovedChange "x" 1 "x()"])
        ["pkg/a.py", "pkg/b.py", "pkg/c.py"] [] []).2 =
      ["pkg/a.py", "pkg/b.py", "pkg/c.py"].filterMap (fun f =>
        if (fun f => decide (f ≠ "pkg/b.py")) f then
          match (fun f => if f = "pkg/c.py" then Except.error "boom"
            else Except.ok [functionRemovedChange "x" 1 "x()"]) f with
          | .ok _ => none
          | .error e => some ("Error analyzing " ++ f ++ ": " ++ e)
        else none) :=
  directory_scan_contract _ _ ["pkg/a.py", "pkg/b.py", "pkg/c.py"] "pkg/a.py"

end SSIDiff
